import Mathlib

/-!
# es2gears-wayland: the 4x4 matrix library and the gear mesh generator

A shallow embedding of `src/es2gears-wayland/es2gears-wayland.c`.

`GLfloat` and `double` values are elements of a field `α` (exact arithmetic); the
functions of `<math.h>` the program calls (`sincos`, `M_PI`) are a parameter `Libm α`.
A `GLfloat *` that points to 16 floats is a `Mat α`; a C function that writes through
such a pointer returns the new contents.
-/

namespace Es2Gears

variable {α : Type}

/-! ## Matrices -/

/-- A `GLfloat[16]`: sixteen entries, entry `4 * row + column`. -/
abbrev Mat (α : Type) := Fin 16 → α

/-- The functions of `<math.h>` used by the program: `M_PI` and the two results of `sincos`. -/
structure Libm (α : Type) where
  M_PI : α
  sin : α → α
  cos : α → α

/-- Array literal `{ a0, ..., a15 }` of a `GLfloat[16]`. -/
def Mat.ofList (l : List α) (h : l.length = 16) : Mat α :=
  fun i => l.get ⟨i.val, by rw [h]; exact i.isLt⟩

/-- Contents given to a local `GLfloat[16]` that the code declares without an initialiser;
every use below overwrites an entry before reading it. -/
def Mat.uninit [Zero α] : Mat α := fun _ => 0

/-- Inner loop of `multiply` for one `i`: `for (j = 0; j < 4; j++) tmp[i] += row[j] * column[j * 4]`
with `row = n + d.quot * 4` and `column = m + d.rem`. -/
def multiply_inner [Add α] [Mul α] (m n : Mat α) (i : Fin 16) (tmp : Mat α) : Mat α :=
  (List.finRange 4).foldl
    (fun tmp j =>
      Function.update tmp i
        (tmp i + n ⟨i.val / 4 * 4 + j.val, by omega⟩ * m ⟨i.val % 4 + j.val * 4, by omega⟩))
    tmp

/-- The C function `multiply(m, n)`: fills the local `tmp` entry by entry from `m` and `n`, then
copies `tmp` over `m`. Returns the new contents of `m`. -/
def multiply [Zero α] [Add α] [Mul α] (m n : Mat α) : Mat α :=
  let tmp : Mat α :=
    (List.finRange 16).foldl
      (fun tmp i => multiply_inner m n i (Function.update tmp i 0))
      Mat.uninit
  tmp

/-- The local array `r` of `rotate`, built from the results `s`, `c` of `sincos(angle, &s, &c)`. -/
def rotate_r [Field α] (L : Libm α) (angle x y z : α) : Mat α :=
  let s := L.sin angle
  let c := L.cos angle
  Mat.ofList [
    x * x * (1 - c) + c,     y * x * (1 - c) + z * s, x * z * (1 - c) - y * s, 0,
    x * y * (1 - c) - z * s, y * y * (1 - c) + c,     y * z * (1 - c) + x * s, 0,
    x * z * (1 - c) + y * s, y * z * (1 - c) - x * s, z * z * (1 - c) + c,     0,
    0, 0, 0, 1] rfl

/-- The C function `rotate(m, angle, x, y, z)`: `sincos(angle, &s, &c)`, the array `r`, then
`multiply(m, r)`. -/
def rotate [Field α] (L : Libm α) (m : Mat α) (angle x y z : α) : Mat α :=
  let r : Mat α := rotate_r L angle x y z
  multiply m r

/-- The C function `translate(m, x, y, z)`. -/
def translate [Field α] (m : Mat α) (x y z : α) : Mat α :=
  let t : Mat α := Mat.ofList [1, 0, 0, 0,  0, 1, 0, 0,  0, 0, 1, 0,  x, y, z, 1] rfl
  multiply m t

/-- The C function `identity(m)`: the previous contents of `m` are not read. -/
def identity [Field α] (_m : Mat α) : Mat α :=
  let t : Mat α := Mat.ofList [
    1, 0, 0, 0,
    0, 1, 0, 0,
    0, 0, 1, 0,
    0, 0, 0, 1] rfl
  t

/-- The C function `transpose(m)`. -/
def transpose (m : Mat α) : Mat α :=
  let t : Mat α := Mat.ofList [
    m 0, m 4, m 8,  m 12,
    m 1, m 5, m 9,  m 13,
    m 2, m 6, m 10, m 14,
    m 3, m 7, m 11, m 15] rfl
  t

/-- The C function `invert(m)`, statement by statement. -/
def invert [Field α] (m : Mat α) : Mat α :=
  let t : Mat α := identity Mat.uninit
  -- t[12] = -m[12]; t[13] = -m[13]; t[14] = -m[14];
  let t := Function.update t 12 (-m 12)
  let t := Function.update t 13 (-m 13)
  let t := Function.update t 14 (-m 14)
  -- m[12] = m[13] = m[14] = 0;
  let m := Function.update m 14 0
  let m := Function.update m 13 0
  let m := Function.update m 12 0
  let m := transpose m
  multiply m t

/-- The C function `perspective(m, fovy, aspect, zNear, zFar)`: returns the contents of `m`
after the call. -/
def perspective [Field α] [DecidableEq α] (L : Libm α) (m : Mat α)
    (fovy aspect zNear zFar : α) : Mat α :=
  let tmp : Mat α := identity Mat.uninit
  let radians := fovy / 2 * L.M_PI / 180
  let deltaZ := zFar - zNear
  let sine := L.sin radians
  let cosine := L.cos radians
  if deltaZ = 0 ∨ sine = 0 ∨ aspect = 0 then
    m
  else
    let cotangent := cosine / sine
    let tmp := Function.update tmp 0 (cotangent / aspect)
    let tmp := Function.update tmp 5 cotangent
    let tmp := Function.update tmp 10 (-(zFar + zNear) / deltaZ)
    let tmp := Function.update tmp 11 (-1)
    let tmp := Function.update tmp 14 (-2 * zNear * zFar / deltaZ)
    let tmp := Function.update tmp 15 0
    tmp

/-! ## The gear mesh generator -/

/-- `#define STRIPS_PER_TOOTH 7` -/
def STRIPS_PER_TOOTH : Int := 7

/-- `#define VERTICES_PER_TOOTH 34` -/
def VERTICES_PER_TOOTH : Int := 34

/-- Least value of a C `int` (32 bits). -/
def INT_MIN : Int := -2147483648

/-- Greatest value of a C `int` (32 bits). -/
def INT_MAX : Int := 2147483647

/-- Product of two C `int`s; `none` when the result does not fit an `int` (signed overflow,
which C leaves undefined). -/
def int_mul (a b : Int) : Option Int :=
  if INT_MIN ≤ a * b ∧ a * b ≤ INT_MAX then some (a * b) else none

/-- `struct vertex_strip`: the first vertex of a strip and the number of its vertices. -/
structure vertex_strip where
  first : Int
  count : Int
  deriving DecidableEq, Repr

/-- `GearVertex`, a `GLfloat[GEAR_VERTEX_STRIDE]`: position `x, y, z` then normal. -/
abbrev GearVertex (α : Type) := Fin 6 → α

/-- `struct point` of `create_gear`. -/
structure point (α : Type) where
  x : α
  y : α

/-- `struct gear` without the handle `vbo` of the GL buffer object. `vertices` and `strips` hold
the entries of the two arrays that `create_gear` has written, in index order. -/
structure gear (α : Type) where
  vertices : List (GearVertex α)
  nvertices : Int
  strips : List vertex_strip
  nstrips : Int

/-- The variables the loop of `create_gear` updates. The pointer `v` walks the vertex array from
its start, one vertex at a time, so the array is described by the list `vertices` of the
vertices written so far and `v - gear->vertices` is the length of that list; in the same way
`strips` lists `gear->strips[0 .. cur_strip)` and `cur_strip` is its length. `first` is
`gear->strips[cur_strip].first` and `normal` the local array `normal`. -/
structure GearBuild (α : Type) where
  vertices : List (GearVertex α)
  strips : List vertex_strip
  first : Int
  normal : Fin 3 → α

/-- The state at loop entry: `v = gear->vertices`, `cur_strip = 0`, the strip array zeroed by
`calloc`; `normal` is not initialised and is set before every use. -/
def GearBuild.init [Zero α] : GearBuild α :=
  { vertices := [], strips := [], first := 0, normal := fun _ => 0 }

/-- The C function `vert(v, x, y, z, n)`: fills the vertex at `v` and returns `v + 1`. -/
def vert (v : List (GearVertex α)) (x y z : α) (n : Fin 3 → α) : List (GearVertex α) :=
  v ++ [![x, y, z, n 0, n 1, n 2]]

/-- `GEAR_POINT(r, da)`: `{ (r) * c[(da)], (r) * s[(da)] }`. -/
def GEAR_POINT [Mul α] (s c : Fin 5 → α) (r : α) (da : Fin 5) : point α :=
  { x := r * c da, y := r * s da }

/-- `SET_NORMAL(x, y, z)` -/
def SET_NORMAL (st : GearBuild α) (x y z : α) : GearBuild α :=
  { st with normal := ![x, y, z] }

/-- `GEAR_VERT(v, point, sign)`: `vert((v), p[(point)].x, p[(point)].y, (sign) * width * 0.5, normal)`,
assigned to `v`; the constant `0.5` is written `1 / 2`. -/
def GEAR_VERT [Field α] (p : Fin 7 → point α) (width : α) (st : GearBuild α) (pt : Fin 7)
    (sign : α) : GearBuild α :=
  { st with vertices := vert st.vertices (p pt).x (p pt).y (sign * width * (1 / 2)) st.normal }

/-- `START_STRIP`: `gear->strips[cur_strip].first = v - gear->vertices`. -/
def START_STRIP (st : GearBuild α) : GearBuild α :=
  { st with first := (st.vertices.length : Int) }

/-- `END_STRIP`: `_tmp = v - gear->vertices; gear->strips[cur_strip].count = _tmp -
gear->strips[cur_strip].first; cur_strip++`. The next entry of the strip array is still zero. -/
def END_STRIP (st : GearBuild α) : GearBuild α :=
  let _tmp : Int := (st.vertices.length : Int)
  { st with
    strips := st.strips ++ [{ first := st.first, count := _tmp - st.first }]
    first := 0 }

/-- `QUAD_WITH_NORMAL(p1, p2)` -/
def QUAD_WITH_NORMAL [Field α] (p : Fin 7 → point α) (width : α) (st : GearBuild α)
    (p1 p2 : Fin 7) : GearBuild α :=
  let st := SET_NORMAL st ((p p1).y - (p p2).y) (-((p p1).x - (p p2).x)) 0
  let st := GEAR_VERT p width st p1 (-1)
  let st := GEAR_VERT p width st p1 1
  let st := GEAR_VERT p width st p2 (-1)
  let st := GEAR_VERT p width st p2 1
  st

/-- The seven points `p` of tooth `i`, from the five `sincos` calls of the loop body. -/
def gear_points [Field α] (L : Libm α) (r0 r1 r2 da : α) (teeth : Int) (i : Nat) :
    Fin 7 → point α :=
  let s : Fin 5 → α := ![
    L.sin (i * 2 * L.M_PI / teeth),
    L.sin (i * 2 * L.M_PI / teeth + da),
    L.sin (i * 2 * L.M_PI / teeth + da * 2),
    L.sin (i * 2 * L.M_PI / teeth + da * 3),
    L.sin (i * 2 * L.M_PI / teeth + da * 4)]
  let c : Fin 5 → α := ![
    L.cos (i * 2 * L.M_PI / teeth),
    L.cos (i * 2 * L.M_PI / teeth + da),
    L.cos (i * 2 * L.M_PI / teeth + da * 2),
    L.cos (i * 2 * L.M_PI / teeth + da * 3),
    L.cos (i * 2 * L.M_PI / teeth + da * 4)]
  ![GEAR_POINT s c r2 1,
    GEAR_POINT s c r2 2,
    GEAR_POINT s c r1 0,
    GEAR_POINT s c r1 3,
    GEAR_POINT s c r0 0,
    GEAR_POINT s c r1 4,
    GEAR_POINT s c r0 4]

/-- The block `/* Front face */` of the loop body. -/
def front_face [Field α] (p : Fin 7 → point α) (width : α) (st : GearBuild α) : GearBuild α :=
  let st := START_STRIP st
  let st := SET_NORMAL st 0 0 1
  let st := GEAR_VERT p width st 0 1
  let st := GEAR_VERT p width st 1 1
  let st := GEAR_VERT p width st 2 1
  let st := GEAR_VERT p width st 3 1
  let st := GEAR_VERT p width st 4 1
  let st := GEAR_VERT p width st 5 1
  let st := GEAR_VERT p width st 6 1
  END_STRIP st

/-- The block `/* Back face */` of the loop body. -/
def back_face [Field α] (p : Fin 7 → point α) (width : α) (st : GearBuild α) : GearBuild α :=
  let st := START_STRIP st
  let st := SET_NORMAL st 0 0 (-1)
  let st := GEAR_VERT p width st 6 (-1)
  let st := GEAR_VERT p width st 5 (-1)
  let st := GEAR_VERT p width st 4 (-1)
  let st := GEAR_VERT p width st 3 (-1)
  let st := GEAR_VERT p width st 2 (-1)
  let st := GEAR_VERT p width st 1 (-1)
  let st := GEAR_VERT p width st 0 (-1)
  END_STRIP st

/-- A block `START_STRIP; QUAD_WITH_NORMAL(p1, p2); END_STRIP;` of the loop body: the inner face
and each of the four outer faces. -/
def quad_strip [Field α] (p : Fin 7 → point α) (width : α) (p1 p2 : Fin 7)
    (st : GearBuild α) : GearBuild α :=
  let st := START_STRIP st
  let st := QUAD_WITH_NORMAL p width st p1 p2
  END_STRIP st

/-- One iteration of the loop `for (i = 0; i < teeth; i++)` of `create_gear`. -/
def gear_tooth [Field α] (L : Libm α) (r0 r1 r2 da width : α) (teeth : Int)
    (st : GearBuild α) (i : Nat) : GearBuild α :=
  let p := gear_points L r0 r1 r2 da teeth i
  /- Front face -/
  let st := front_face p width st
  /- Inner face -/
  let st := quad_strip p width 4 6 st
  /- Back face -/
  let st := back_face p width st
  /- Outer face -/
  let st := quad_strip p width 0 2 st
  let st := quad_strip p width 1 0 st
  let st := quad_strip p width 3 1 st
  let st := quad_strip p width 5 3 st
  st

/-- Which of the three allocations of `create_gear` succeed: `malloc(sizeof *gear)`, the `calloc`
of the strip array and the `calloc` of the vertex array. -/
structure Heap where
  gear_ok : Bool
  strips_ok : Bool
  vertices_ok : Bool

/-- How a call of `create_gear` ends: it returns `NULL`, it returns a gear, or its behaviour is
undefined (an `int` product overflows, or it writes through a null pointer). -/
inductive Outcome (γ : Type) where
  | null : Outcome γ
  | ok (g : γ) : Outcome γ
  | undefined : Outcome γ

/-- The C function `create_gear(inner_radius, outer_radius, width, teeth, tooth_depth)`. The calls
that upload the vertices to a GL buffer object are left out. -/
def create_gear [Field α] (L : Libm α) (heap : Heap) (inner_radius outer_radius width : α)
    (teeth : Int) (tooth_depth : α) : Outcome (gear α) :=
  /- Allocate memory for the gear -/
  if heap.gear_ok = false then
    Outcome.null
  else
    /- Calculate the radii used in the gear -/
    let r0 := inner_radius
    let r1 := outer_radius - tooth_depth / 2
    let r2 := outer_radius + tooth_depth / 2
    let da := 2 * L.M_PI / teeth / 4
    /- Allocate memory for the triangle strip information -/
    match int_mul STRIPS_PER_TOOTH teeth with
    | none => Outcome.undefined
    | some nstrips =>
      /- Allocate memory for the vertices -/
      match int_mul VERTICES_PER_TOOTH teeth with
      | none => Outcome.undefined
      | some _ =>
        if 0 < teeth ∧ (heap.strips_ok = false ∨ heap.vertices_ok = false) then
          /- the first iteration stores through `gear->strips` and through `v` -/
          Outcome.undefined
        else
          let st := (List.range teeth.toNat).foldl
            (gear_tooth L r0 r1 r2 da width teeth) GearBuild.init
          Outcome.ok
            { vertices := st.vertices
              nvertices := (st.vertices.length : Int)
              strips := st.strips
              nstrips := nstrips }

/-! ## Drawing a gear -/

/-- What one call of `draw_gear` computes and hands to GL: the local arrays `model_view`,
`model_view_projection` (passed to `glUniformMatrix4fv` for the model-view-projection matrix) and
`normal_matrix` (passed to `glUniformMatrix4fv` for the normal matrix), the `color` passed to
`glUniform4fv`, and the arguments `(first, count)` of the calls
`glDrawArrays(GL_TRIANGLE_STRIP, first, count)` in the order they are issued. `transform` and
`ProjectionMatrix` are the caller's array and the global after the call. -/
structure Drawn (α : Type) where
  model_view : Mat α
  model_view_projection : Mat α
  normal_matrix : Mat α
  color : Fin 4 → α
  draws : List vertex_strip
  transform : Mat α
  ProjectionMatrix : Mat α

/-- The C function `draw_gear(gear, transform, x, y, angle, color)`, with the global
`ProjectionMatrix` as an argument. `transform` and `ProjectionMatrix` are only read, by the two
`memcpy` calls. The loop reads `gear->strips[n]` for `n < gear->nstrips`; an entry of that array
which `create_gear` has not written is still zero from `calloc`. The calls that bind the buffer
and set up the vertex attributes are left out. -/
def draw_gear [Field α] (L : Libm α) (ProjectionMatrix : Mat α) (gear : gear α)
    (transform : Mat α) (x y angle : α) (color : Fin 4 → α) : Drawn α :=
  /- Translate and rotate the gear -/
  let model_view : Mat α := transform
  let model_view := translate model_view x y 0
  let model_view := rotate L model_view (2 * L.M_PI * angle / 360) 0 0 1
  /- Create and set the ModelViewProjectionMatrix -/
  let model_view_projection : Mat α := ProjectionMatrix
  let model_view_projection := multiply model_view_projection model_view
  /- Create and set the NormalMatrix -/
  let normal_matrix : Mat α := model_view
  let normal_matrix := invert normal_matrix
  let normal_matrix := transpose normal_matrix
  /- Draw the triangle strips that comprise the gear -/
  let draws := (List.range gear.nstrips.toNat).map
    (fun n => gear.strips.getD n { first := 0, count := 0 })
  { model_view := model_view
    model_view_projection := model_view_projection
    normal_matrix := normal_matrix
    color := color
    draws := draws
    transform := transform
    ProjectionMatrix := ProjectionMatrix }

/-- The matrix `transform` that `redraw` builds before it draws the three gears:
`identity(transform)`, `translate(transform, 0, 0, -20)` and the three `rotate` calls by the
angles `view_rot[0..2]` (degrees) about the X, Y and Z axes. -/
def redraw_transform [Field α] (L : Libm α) (view_rot : Fin 3 → α) : Mat α :=
  let transform : Mat α := identity Mat.uninit
  /- Translate and rotate the view -/
  let transform := translate transform 0 0 (-20)
  let transform := rotate L transform (2 * L.M_PI * view_rot 0 / 360) 1 0 0
  let transform := rotate L transform (2 * L.M_PI * view_rot 1 / 360) 0 1 0
  let transform := rotate L transform (2 * L.M_PI * view_rot 2 / 360) 0 0 1
  transform

/-! ### Matrices as mathematical objects -/

/-- Index of row `i`, column `j` in a `GLfloat[16]`. -/
def idx (i j : Fin 4) : Fin 16 := ⟨4 * i.val + j.val, by omega⟩

/-- The 4x4 matrix a `GLfloat[16]` stands for: entry `(i, j)` is `m[4 * i + j]`. -/
def toMatrix (m : Mat α) : Matrix (Fin 4) (Fin 4) α := Matrix.of fun i j => m (idx i j)

/-- The upper-left 3x3 block of a `GLfloat[16]`. -/
def block3 (m : Mat α) : Matrix (Fin 3) (Fin 3) α :=
  Matrix.of fun i j => m ⟨4 * i.val + j.val, by omega⟩

/-- The translation row `m[12], m[13], m[14]`. -/
def transRow (m : Mat α) : Fin 3 → α := fun j => m ⟨12 + j.val, by omega⟩

/-- A pure rotation-translation matrix: orthogonal upper-left block, last column `(0, 0, 0, 1)`. -/
def IsRigid [Field α] (m : Mat α) : Prop :=
  block3 m * (block3 m).transpose = 1 ∧ m 3 = 0 ∧ m 7 = 0 ∧ m 11 = 0 ∧ m 15 = 1

/-! ### `multiply` on memory

The same function with its arguments as addresses into one memory of floats, so that the two
arrays may overlap or be the same. -/

/-- The sixteen floats at address `p`. -/
def load (mem : Nat → α) (p : Nat) : Mat α := fun i => mem (p + i.val)

/-- The call `multiply(m, n)` on a memory: the loop reads `m[..]` and `n[..]` and writes only the
local `tmp`; `memcpy(m, &tmp, sizeof tmp)` then overwrites the sixteen floats at `m`. -/
def multiply_mem [Zero α] [Add α] [Mul α] (mem : Nat → α) (m n : Nat) : Nat → α :=
  let tmp : Mat α := multiply (load mem m) (load mem n)
  fun a => if h : m ≤ a ∧ a < m + 16 then tmp ⟨a - m, by omega⟩ else mem a

/-! ### Definitions used to state the properties -/

/-- The last column of `m` is `(0, 0, 0, 1)`. -/
def LastColumn [Field α] (m : Mat α) : Prop := m 3 = 0 ∧ m 7 = 0 ∧ m 11 = 0 ∧ m 15 = 1

/-- The dot product `multiply` stores in `tmp[i]`, summed in the order of the inner loop. -/
def multiply_entry [Zero α] [Add α] [Mul α] (m n : Mat α) (i : Fin 16) : α :=
  0 + n ⟨i.val / 4 * 4 + 0, by omega⟩ * m ⟨i.val % 4 + 0 * 4, by omega⟩ +
      n ⟨i.val / 4 * 4 + 1, by omega⟩ * m ⟨i.val % 4 + 1 * 4, by omega⟩ +
      n ⟨i.val / 4 * 4 + 2, by omega⟩ * m ⟨i.val % 4 + 2 * 4, by omega⟩ +
      n ⟨i.val / 4 * 4 + 3, by omega⟩ * m ⟨i.val % 4 + 3 * 4, by omega⟩

/-- The 4x4 matrix with upper-left block `A`, last row and last column `(0, 0, 0, 1)`. -/
def embed3 [Field α] (A : Matrix (Fin 3) (Fin 3) α) : Matrix (Fin 4) (Fin 4) α :=
  !![A 0 0, A 0 1, A 0 2, 0;
     A 1 0, A 1 1, A 1 2, 0;
     A 2 0, A 2 1, A 2 2, 0;
     0, 0, 0, 1]

/-- The 4x4 translation matrix: the identity with last row `(t 0, t 1, t 2, 1)`. -/
def transl [Field α] (t : Fin 3 → α) : Matrix (Fin 4) (Fin 4) α :=
  !![1, 0, 0, 0;
     0, 1, 0, 0;
     0, 0, 1, 0;
     t 0, t 1, t 2, 1]

/-- The cross-product matrix `[k]×` of a vector `k`: `[k]× v = k × v`. -/
def crossMatrix [Field α] (k : Fin 3 → α) : Matrix (Fin 3) (Fin 3) α :=
  !![0, -k 2, k 1;
     k 2, 0, -k 0;
     -k 1, k 0, 0]

/-- The axis-angle (Rodrigues) rotation matrix as the spec words it, for column vectors:
`cos(theta) * I + sin(theta) * [k]× + (1 - cos(theta)) * k kᵀ`, with `c = cos(theta)` and
`s = sin(theta)`. -/
def rodrigues_spec [Field α] (c s : α) (k : Fin 3 → α) : Matrix (Fin 3) (Fin 3) α :=
  c • (1 : Matrix (Fin 3) (Fin 3) α) + s • crossMatrix k + (1 - c) • Matrix.vecMulVec k k

/-- A rotation by a quarter turn about the Z axis followed by the translation `(1, 2, 3)`. -/
def rigid_example : Mat ℚ :=
  Mat.ofList [0, 1, 0, 0,  -1, 0, 0, 0,  0, 0, 1, 0,  1, 2, 3, 1] rfl

/-- The vertices a block of the loop body writes, observed by running it from the state at loop
entry. -/
def emitted [Zero α] (B : GearBuild α → GearBuild α) : List (GearVertex α) :=
  (B GearBuild.init).vertices

/-- The 34 vertices of one tooth with points `p`, strip after strip. -/
def tooth_vertices [Field α] (p : Fin 7 → point α) (width : α) : List (GearVertex α) :=
  emitted (front_face p width) ++ emitted (quad_strip p width 4 6) ++
  emitted (back_face p width) ++ emitted (quad_strip p width 0 2) ++
  emitted (quad_strip p width 1 0) ++ emitted (quad_strip p width 3 1) ++
  emitted (quad_strip p width 5 3)

/-- The seven strip descriptors of a tooth whose first vertex has index `b`. -/
def tooth_strips (b : Int) : List vertex_strip :=
  [{ first := b, count := 7 }, { first := b + 7, count := 4 }, { first := b + 11, count := 7 },
   { first := b + 18, count := 4 }, { first := b + 22, count := 4 },
   { first := b + 26, count := 4 }, { first := b + 30, count := 4 }]

/-- Offset, within the 34 vertices of a tooth, of the first vertex of its `j`-th strip. -/
def strip_offset (j : Nat) : Int :=
  match j with
  | 0 => 0
  | 1 => 7
  | 2 => 11
  | 3 => 18
  | 4 => 22
  | 5 => 26
  | _ => 30

/-- Number of vertices of the `j`-th strip of a tooth. -/
def strip_count (j : Nat) : Int :=
  match j with
  | 0 => 7
  | 2 => 7
  | _ => 4

/-- The strip of a tooth that holds the tooth's `r`-th vertex. -/
def strip_of_vertex (r : Nat) : Nat :=
  if r < 7 then 0 else if r < 11 then 1 else if r < 18 then 2 else if r < 22 then 3
  else if r < 26 then 4 else if r < 30 then 5 else 6

/-- The uniform scale `diag(2, 2, 2, 1)`, a matrix that is not a rotation-translation. -/
def scale_example : Mat ℚ :=
  Mat.ofList [2, 0, 0, 0,  0, 2, 0, 0,  0, 0, 2, 0,  0, 0, 0, 1] rfl

/-- The rotation about the Z axis with cosine `c` and sine `s`, for row vectors: it maps
`(1, 0, 0, 1)` to `(c, s, 0, 1)`. -/
def rotZ [Field α] (c s : α) : Matrix (Fin 4) (Fin 4) α :=
  !![c, s, 0, 0;
     -s, c, 0, 0;
     0, 0, 1, 0;
     0, 0, 0, 1]

/-- The four vertices of a quad between the points `a` and `b`: `a` at `z = -width/2`, `a` at
`z = +width/2`, `b` at `z = -width/2`, `b` at `z = +width/2`, all with the normal
`(a.y - b.y, -(a.x - b.x), 0)`. -/
def quad_vertices [Field α] (a b : point α) (width : α) : List (GearVertex α) :=
  [![a.x, a.y, -(width / 2), a.y - b.y, -(a.x - b.x), 0],
   ![a.x, a.y, width / 2, a.y - b.y, -(a.x - b.x), 0],
   ![b.x, b.y, -(width / 2), a.y - b.y, -(a.x - b.x), 0],
   ![b.x, b.y, width / 2, a.y - b.y, -(a.x - b.x), 0]]

/-- One call that composes a transform into a matrix: `translate(m, x, y, z)` or
`rotate(m, angle, x, y, z)`. -/
inductive TransformCall (α : Type) where
  | translate (x y z : α) : TransformCall α
  | rotate (angle x y z : α) : TransformCall α

/-- The axis of a `rotate` call is a unit vector; a `translate` call has no condition. -/
def TransformCall.UnitAxis [Field α] : TransformCall α → Prop
  | TransformCall.translate _ _ _ => True
  | TransformCall.rotate _ x y z => x ^ 2 + y ^ 2 + z ^ 2 = 1

/-- The matrix after a sequence of `translate` and `rotate` calls on `m`, first call first. -/
def apply_calls [Field α] (L : Libm α) (m : Mat α) (calls : List (TransformCall α)) : Mat α :=
  calls.foldl
    (fun m call =>
      match call with
      | TransformCall.translate x y z => translate m x y z
      | TransformCall.rotate angle x y z => rotate L m angle x y z)
    m

/-- Dot product of the normal stored in the vertex `v` with the midpoint of the points `a` and
`b` of a quad; the midpoint of the quad lies in the plane `z = 0`. -/
def normal_dot_mid [Field α] (v : GearVertex α) (a b : point α) : α :=
  v 3 * ((a.x + b.x) / 2) + v 4 * ((a.y + b.y) / 2) + v 5 * 0

/-! ## Theorems: matrix library -/

theorem fin4_val_three : ((3 : Fin 4) : Nat) = 3 := rfl

theorem finRange_four : List.finRange 4 = [0, 1, 2, 3] := rfl

theorem finRange_sixteen :
    List.finRange 16 = [0, 1, 2, 3, 4, 5, 6, 7, 8, 9, 10, 11, 12, 13, 14, 15] := rfl

theorem multiply_inner_apply [Zero α] [Add α] [Mul α] (m n : Mat α) (i : Fin 16) (tmp : Mat α)
    (k : Fin 16) :
    multiply_inner m n i (Function.update tmp i 0) k =
      if k = i then multiply_entry m n i else tmp k := by
  by_cases h : k = i
  · subst h
    simp [multiply_inner, finRange_four, multiply_entry]
    rfl
  · simp [multiply_inner, finRange_four, Function.update, h]

theorem foldl_pointwise {β : Type} (g : Fin 16 → β) (f : (Fin 16 → β) → Fin 16 → (Fin 16 → β))
    (hf : ∀ tmp i k, f tmp i k = if k = i then g i else tmp k) (l : List (Fin 16)) :
    ∀ (init : Fin 16 → β) (k : Fin 16), l.foldl f init k = if k ∈ l then g k else init k := by
  induction l with
  | nil => intro init k; simp
  | cons i l ih =>
    intro init k
    rw [List.foldl_cons, ih, hf]
    by_cases h1 : k ∈ l
    · simp [h1]
    · by_cases h2 : k = i
      · subst h2; simp [h1]
      · simp [h1, h2]

/-- Closed form of `multiply`: entry `i` is the dot product of row `i / 4` of `n` with column
`i % 4` of `m`. -/
theorem multiply_apply [Zero α] [Add α] [Mul α] (m n : Mat α) (i : Fin 16) :
    multiply m n i = multiply_entry m n i := by
  unfold multiply
  rw [foldl_pointwise (multiply_entry m n) _ (fun tmp i k => multiply_inner_apply m n i tmp k)]
  simp [List.mem_finRange]

theorem multiply_idx [Field α] (m n : Mat α) (q r : Fin 4) :
    multiply m n (idx q r) = ∑ j : Fin 4, n (idx q j) * m (idx j r) := by
  rw [multiply_apply, Fin.sum_univ_four]
  fin_cases q <;> fin_cases r <;> simp [multiply_entry, idx] <;> rfl

theorem toMatrix_multiply [Field α] (m n : Mat α) :
    toMatrix (multiply m n) = toMatrix n * toMatrix m := by
  ext q r
  simp only [toMatrix, Matrix.of_apply, Matrix.mul_apply, multiply_idx]

/-- C4: `multiply(M, N)` replaces `M` with the matrix product `N * M`: entry `4q + r` of the
result is the sum over `j` of `N[4q + j] * M[4j + r]`, so a row vector `v` is mapped to
`(v * N) * M`. On a memory of floats the call changes only the sixteen floats at `M`, so an `N`
stored apart from `M` is left unchanged, and when both arguments are the same array the result
is that matrix multiplied with itself. -/
theorem multiply_is_product [Field α] (M N : Mat α) :
    (∀ q r : Fin 4, multiply M N (idx q r) = ∑ j : Fin 4, N (idx q j) * M (idx j r)) ∧
    toMatrix (multiply M N) = toMatrix N * toMatrix M ∧
    (∀ v : Fin 4 → α, Matrix.vecMul v (toMatrix (multiply M N)) =
        Matrix.vecMul (Matrix.vecMul v (toMatrix N)) (toMatrix M)) ∧
    (∀ (mem : Nat → α) (m n : Nat),
        toMatrix (load (multiply_mem mem m n) m) = toMatrix (load mem n) * toMatrix (load mem m) ∧
        (∀ a, ¬ (m ≤ a ∧ a < m + 16) → multiply_mem mem m n a = mem a) ∧
        (n + 16 ≤ m ∨ m + 16 ≤ n → load (multiply_mem mem m n) n = load mem n)) ∧
    (∀ (mem : Nat → α) (m : Nat),
        toMatrix (load (multiply_mem mem m m) m) = toMatrix (load mem m) * toMatrix (load mem m)) := by
  have hload : ∀ (mem : Nat → α) (m n : Nat),
      load (multiply_mem mem m n) m = multiply (load mem m) (load mem n) := by
    intro mem m n
    funext i
    have hi := i.isLt
    simp [load, multiply_mem, hi]
  refine ⟨multiply_idx M N, toMatrix_multiply M N, ?_, ?_, ?_⟩
  · intro v
    rw [toMatrix_multiply, Matrix.vecMul_vecMul]
  · intro mem m n
    refine ⟨by rw [hload, toMatrix_multiply], ?_, ?_⟩
    · intro a ha
      simp [multiply_mem, ha]
    · intro h
      funext i
      have hi := i.isLt
      have : ¬ (m ≤ n + i.val ∧ n + i.val < m + 16) := by omega
      simp [load, multiply_mem, this]
  · intro mem m
    rw [hload, toMatrix_multiply]

theorem toMatrix_injective (m n : Mat α) (h : toMatrix m = toMatrix n) : m = n := by
  funext i
  have hq : i.val / 4 < 4 := by omega
  have hr : i.val % 4 < 4 := Nat.mod_lt _ (by decide)
  have hi : i = idx ⟨i.val / 4, hq⟩ ⟨i.val % 4, hr⟩ := by
    apply Fin.ext
    simp only [idx]
    omega
  have := congrFun (congrFun h ⟨i.val / 4, hq⟩) ⟨i.val % 4, hr⟩
  simp only [toMatrix, Matrix.of_apply] at this
  rw [hi]
  exact this

theorem embed3_mul [Field α] (A B : Matrix (Fin 3) (Fin 3) α) :
    embed3 A * embed3 B = embed3 (A * B) := by
  ext i j
  fin_cases i <;> fin_cases j <;>
    simp [embed3, Matrix.mul_apply, Fin.sum_univ_succ]

theorem embed3_one [Field α] : embed3 (1 : Matrix (Fin 3) (Fin 3) α) = 1 := by
  ext i j
  fin_cases i <;> fin_cases j <;> simp [embed3, Matrix.one_apply, Matrix.vecHead, Matrix.vecTail]

theorem transl_mul [Field α] (s t : Fin 3 → α) : transl s * transl t = transl (s + t) := by
  ext i j
  fin_cases i <;> fin_cases j <;>
    simp [transl, Matrix.mul_apply, Fin.sum_univ_succ]

theorem transl_zero [Field α] : transl (0 : Fin 3 → α) = 1 := by
  ext i j
  fin_cases i <;> fin_cases j <;> simp [transl, Matrix.one_apply, Matrix.vecHead, Matrix.vecTail]

theorem IsRigid.lastColumn [Field α] {m : Mat α} (h : IsRigid m) : LastColumn m := h.2

theorem toMatrix_of_lastColumn [Field α] (m : Mat α) (h : LastColumn m) :
    toMatrix m = embed3 (block3 m) * transl (transRow m) := by
  obtain ⟨h3, h7, h11, h15⟩ := h
  ext i j
  fin_cases i <;> fin_cases j <;>
    simp [toMatrix, idx, embed3, transl, block3, transRow, Matrix.mul_apply, Fin.sum_univ_succ,
      fin4_val_three, h3, h7, h11, h15]

theorem toMatrix_invert [Field α] (m : Mat α) (h : LastColumn m) :
    toMatrix (invert m) = transl (-transRow m) * embed3 (block3 m).transpose := by
  obtain ⟨h3, h7, h11, h15⟩ := h
  unfold invert
  simp only []
  rw [toMatrix_multiply]
  congr 1
  · ext i j
    fin_cases i <;> fin_cases j <;>
      simp [toMatrix, idx, transl, transRow, identity, Mat.ofList, Function.update, fin4_val_three]
  · ext i j
    fin_cases i <;> fin_cases j <;>
      simp [toMatrix, idx, embed3, block3, transpose, Mat.ofList, Function.update,
        fin4_val_three, h3, h7, h11, h15]

theorem parts_of_toMatrix [Field α] (m : Mat α) (s : Fin 3 → α) (A : Matrix (Fin 3) (Fin 3) α)
    (h : toMatrix m = transl s * embed3 A) :
    block3 m = A ∧ transRow m = Matrix.vecMul s A ∧ LastColumn m := by
  have e : ∀ q r : Fin 4, m (idx q r) = (transl s * embed3 A) q r := by
    intro q r; rw [← h]; rfl
  refine ⟨?_, ?_, ?_, ?_, ?_, ?_⟩
  · ext i j
    fin_cases i <;> fin_cases j
    · exact (e 0 0).trans (by simp [transl, embed3, Matrix.mul_apply, Fin.sum_univ_succ])
    · exact (e 0 1).trans (by simp [transl, embed3, Matrix.mul_apply, Fin.sum_univ_succ])
    · exact (e 0 2).trans (by simp [transl, embed3, Matrix.mul_apply, Fin.sum_univ_succ])
    · exact (e 1 0).trans (by simp [transl, embed3, Matrix.mul_apply, Fin.sum_univ_succ])
    · exact (e 1 1).trans (by simp [transl, embed3, Matrix.mul_apply, Fin.sum_univ_succ])
    · exact (e 1 2).trans (by simp [transl, embed3, Matrix.mul_apply, Fin.sum_univ_succ])
    · exact (e 2 0).trans (by simp [transl, embed3, Matrix.mul_apply, Fin.sum_univ_succ])
    · exact (e 2 1).trans (by simp [transl, embed3, Matrix.mul_apply, Fin.sum_univ_succ])
    · exact (e 2 2).trans (by simp [transl, embed3, Matrix.mul_apply, Fin.sum_univ_succ])
  · funext j
    fin_cases j
    · exact (e 3 0).trans (by
        simp [transl, embed3, Matrix.mul_apply, Matrix.vecMul, Matrix.dotProduct,
          Fin.sum_univ_succ])
    · exact (e 3 1).trans (by
        simp [transl, embed3, Matrix.mul_apply, Matrix.vecMul, Matrix.dotProduct,
          Fin.sum_univ_succ])
    · exact (e 3 2).trans (by
        simp [transl, embed3, Matrix.mul_apply, Matrix.vecMul, Matrix.dotProduct,
          Fin.sum_univ_succ])
  · exact (e 0 3).trans (by simp [transl, embed3, Matrix.mul_apply, Fin.sum_univ_succ])
  · exact (e 1 3).trans (by simp [transl, embed3, Matrix.mul_apply, Fin.sum_univ_succ])
  · exact (e 2 3).trans (by simp [transl, embed3, Matrix.mul_apply, Fin.sum_univ_succ])
  · exact (e 3 3).trans (by simp [transl, embed3, Matrix.mul_apply, Fin.sum_univ_succ])

/-- What `invert` computes on a pure rotation-translation matrix. -/
theorem invert_spec [Field α] (M : Mat α) (h : IsRigid M) :
    block3 (invert M) = (block3 M).transpose ∧
    transRow (invert M) = -Matrix.vecMul (transRow M) (block3 M).transpose ∧
    LastColumn (invert M) ∧
    toMatrix M * toMatrix (invert M) = 1 ∧
    toMatrix (invert M) * toMatrix M = 1 := by
  have hR : block3 M * (block3 M).transpose = 1 := h.1
  have hR2 : (block3 M).transpose * block3 M = 1 := Matrix.mul_eq_one_comm.mp hR
  have hi := toMatrix_invert M h.2
  have hM := toMatrix_of_lastColumn M h.2
  obtain ⟨hb, ht, hl⟩ := parts_of_toMatrix _ _ _ hi
  refine ⟨hb, ?_, hl, ?_, ?_⟩
  · rw [ht, Matrix.neg_vecMul]
  · rw [hi, hM]
    calc embed3 (block3 M) * transl (transRow M) *
          (transl (-transRow M) * embed3 (block3 M).transpose)
        = embed3 (block3 M) * (transl (transRow M) * transl (-transRow M)) *
            embed3 (block3 M).transpose := by simp only [Matrix.mul_assoc]
      _ = 1 := by
          rw [transl_mul, add_neg_cancel, transl_zero, Matrix.mul_one, embed3_mul, hR,
            embed3_one]
  · rw [hi, hM]
    calc transl (-transRow M) * embed3 (block3 M).transpose *
          (embed3 (block3 M) * transl (transRow M))
        = transl (-transRow M) * (embed3 (block3 M).transpose * embed3 (block3 M)) *
            transl (transRow M) := by simp only [Matrix.mul_assoc]
      _ = 1 := by
          rw [embed3_mul, hR2, embed3_one, Matrix.mul_one, transl_mul, neg_add_cancel,
            transl_zero]

/-- The result of `invert` on a pure rotation-translation matrix is one again. -/
theorem invert_isRigid [Field α] (M : Mat α) (h : IsRigid M) : IsRigid (invert M) := by
  obtain ⟨hb, _, hl, _, _⟩ := invert_spec M h
  refine ⟨?_, hl⟩
  rw [hb, Matrix.transpose_transpose]
  exact Matrix.mul_eq_one_comm.mp h.1

theorem rigid_example_isRigid : IsRigid rigid_example := by
  refine ⟨?_, rfl, rfl, rfl, rfl⟩
  ext i j
  fin_cases i <;> fin_cases j <;>
    simp [block3, rigid_example, Mat.ofList, Matrix.mul_apply, Fin.sum_univ_succ,
      Matrix.one_apply]

/-- C5: for a pure rotation-translation matrix `M` (upper-left block `R` with `R * Rᵀ = 1`,
`M[3] = M[7] = M[11] = 0`, `M[15] = 1`, translation `t` in `M[12..14]`), `invert(M)` is the
true inverse of `M`: its block is `Rᵀ`, its translation row is `-t * Rᵀ`, its last column is
`(0, 0, 0, 1)`, and its product with `M` is the identity in both orders. -/
theorem invert_is_inverse [Field α] (M : Mat α) (h : IsRigid M) :
    block3 (invert M) = (block3 M).transpose ∧
    transRow (invert M) = -Matrix.vecMul (transRow M) (block3 M).transpose ∧
    (invert M 3 = 0 ∧ invert M 7 = 0 ∧ invert M 11 = 0 ∧ invert M 15 = 1) ∧
    toMatrix M * toMatrix (invert M) = 1 ∧
    toMatrix (invert M) * toMatrix M = 1 :=
  invert_spec M h

/-- C5 at the quarter turn about Z with translation `(1, 2, 3)`. -/
theorem invert_is_inverse_witness :
    IsRigid rigid_example ∧
    toMatrix rigid_example * toMatrix (invert rigid_example) = 1 ∧
    toMatrix (invert rigid_example) * toMatrix rigid_example = 1 :=
  ⟨rigid_example_isRigid, (invert_is_inverse rigid_example rigid_example_isRigid).2.2.2⟩

/-- C6: for a pure rotation-translation matrix `M`, `invert(invert(M)) = M`. -/
theorem invert_invert [Field α] (M : Mat α) (h : IsRigid M) : invert (invert M) = M := by
  obtain ⟨_, _, _, _, h1⟩ := invert_spec M h
  obtain ⟨_, _, _, h2, _⟩ := invert_spec (invert M) (invert_isRigid M h)
  apply toMatrix_injective
  calc toMatrix (invert (invert M))
      = (toMatrix M * toMatrix (invert M)) * toMatrix (invert (invert M)) := by
        rw [(invert_spec M h).2.2.2.1, Matrix.one_mul]
    _ = toMatrix M * (toMatrix (invert M) * toMatrix (invert (invert M))) := by
        rw [Matrix.mul_assoc]
    _ = toMatrix M := by rw [h2, Matrix.mul_one]

/-- C6 at the quarter turn about Z with translation `(1, 2, 3)`. -/
theorem invert_invert_witness :
    IsRigid rigid_example ∧ invert (invert rigid_example) = rigid_example :=
  ⟨rigid_example_isRigid, invert_invert rigid_example rigid_example_isRigid⟩

/-! ### `perspective` -/

/-- C7: when `zFar ≠ zNear`, `aspect ≠ 0` and `sin(fovy / 2 * pi / 180) ≠ 0`, `perspective`
overwrites `M`, whatever it held, with the matrix whose entries are
`M[0] = cot / aspect`, `M[5] = cot`, `M[10] = -(zFar + zNear) / (zFar - zNear)`, `M[11] = -1`,
`M[14] = -2 * zNear * zFar / (zFar - zNear)`, `M[15] = 0` and `0` elsewhere, where `cot` is the
cotangent of `fovy / 2 * pi / 180`; so `M[11] = -1`, `M[15] = 0`, and `M[0] = M[5]` when
`aspect = 1`. -/
theorem perspective_entries (M : Mat ℝ) (fovy aspect zNear zFar : ℝ)
    (hz : zFar ≠ zNear) (ha : aspect ≠ 0) (hs : Real.sin (fovy / 2 * Real.pi / 180) ≠ 0) :
    perspective (Libm.mk Real.pi Real.sin Real.cos) M fovy aspect zNear zFar =
      Mat.ofList [
        Real.cot (fovy / 2 * Real.pi / 180) / aspect, 0, 0, 0,
        0, Real.cot (fovy / 2 * Real.pi / 180), 0, 0,
        0, 0, -(zFar + zNear) / (zFar - zNear), -1,
        0, 0, -2 * zNear * zFar / (zFar - zNear), 0] rfl ∧
    perspective (Libm.mk Real.pi Real.sin Real.cos) M fovy aspect zNear zFar 11 = -1 ∧
    perspective (Libm.mk Real.pi Real.sin Real.cos) M fovy aspect zNear zFar 15 = 0 ∧
    (aspect = 1 →
      perspective (Libm.mk Real.pi Real.sin Real.cos) M fovy aspect zNear zFar 0 =
      perspective (Libm.mk Real.pi Real.sin Real.cos) M fovy aspect zNear zFar 5) := by
  have hd : zFar - zNear ≠ 0 := sub_ne_zero.mpr hz
  have hc : ¬ (zFar - zNear = 0 ∨ Real.sin (fovy / 2 * Real.pi / 180) = 0 ∨ aspect = 0) := by
    rintro (h | h | h)
    · exact hd h
    · exact hs h
    · exact ha h
  have key : ∀ ct : ℝ,
      ct = Real.cos (fovy / 2 * Real.pi / 180) / Real.sin (fovy / 2 * Real.pi / 180) →
      perspective (Libm.mk Real.pi Real.sin Real.cos) M fovy aspect zNear zFar =
        Mat.ofList [
          ct / aspect, 0, 0, 0,
          0, ct, 0, 0,
          0, 0, -(zFar + zNear) / (zFar - zNear), -1,
          0, 0, -2 * zNear * zFar / (zFar - zNear), 0] rfl := by
    intro ct hct
    subst hct
    unfold perspective
    rw [if_neg hc]
    funext i
    fin_cases i <;> rfl
  have hmain := key _ (Real.cot_eq_cos_div_sin _)
  refine ⟨hmain, ?_, ?_, ?_⟩
  · rw [hmain]; rfl
  · rw [hmain]; rfl
  · intro h1
    have e0 : perspective (Libm.mk Real.pi Real.sin Real.cos) M fovy aspect zNear zFar 0 =
        Real.cot (fovy / 2 * Real.pi / 180) / aspect := by rw [hmain]; rfl
    have e5 : perspective (Libm.mk Real.pi Real.sin Real.cos) M fovy aspect zNear zFar 5 =
        Real.cot (fovy / 2 * Real.pi / 180) := by rw [hmain]; rfl
    rw [e0, e5, h1, div_one]

theorem sin_thirty_degrees : Real.sin (60 / 2 * Real.pi / 180) ≠ 0 := by
  have h : (60 : ℝ) / 2 * Real.pi / 180 = Real.pi / 6 := by ring
  rw [h, Real.sin_pi_div_six]
  norm_num

/-- C7 at `perspective(60, 1.0, 1.0, 1024.0)` on a matrix holding the identity. -/
theorem perspective_entries_witness :
    perspective (Libm.mk Real.pi Real.sin Real.cos) (identity Mat.uninit) 60 1 1 1024 0 =
      perspective (Libm.mk Real.pi Real.sin Real.cos) (identity Mat.uninit) 60 1 1 1024 5 ∧
    perspective (Libm.mk Real.pi Real.sin Real.cos) (identity Mat.uninit) 60 1 1 1024 11 = -1 ∧
    perspective (Libm.mk Real.pi Real.sin Real.cos) (identity Mat.uninit) 60 1 1 1024 15 = 0 :=
  have h := perspective_entries (identity Mat.uninit) 60 1 1 1024 (by norm_num) one_ne_zero
    sin_thirty_degrees
  ⟨h.2.2.2 rfl, h.2.1, h.2.2.1⟩

/-- C8: if `zFar = zNear`, or the sine that `sincos` returns for `radians = fovy / 2 * M_PI / 180`
is zero, or `aspect = 0`, then `perspective` returns early and leaves all sixteen entries of `M`
as they were. The sine is the value the code tests, whatever `sincos` computes: the statement
holds for every field of values and every libm. -/
theorem perspective_degenerate [Field α] [DecidableEq α] (L : Libm α) (M : Mat α)
    (fovy aspect zNear zFar : α)
    (h : zFar = zNear ∨ L.sin (fovy / 2 * L.M_PI / 180) = 0 ∨ aspect = 0) :
    perspective L M fovy aspect zNear zFar = M ∧
    ∀ i : Fin 16, perspective L M fovy aspect zNear zFar i = M i := by
  have hc : zFar - zNear = 0 ∨ L.sin (fovy / 2 * L.M_PI / 180) = 0 ∨ aspect = 0 := by
    rcases h with h | h | h
    · exact Or.inl (sub_eq_zero.mpr h)
    · exact Or.inr (Or.inl h)
    · exact Or.inr (Or.inr h)
  have hmain : perspective L M fovy aspect zNear zFar = M := by
    unfold perspective
    rw [if_pos hc]
  exact ⟨hmain, fun i => by rw [hmain]⟩

/-- C8 on each of its three branches with the real sine and cosine, a passed-in identity
remaining the identity: `zNear = zFar`, then `fovy = 0` (the sine of `0` is `0`), then
`aspect = 0`; and on the sine branch with a libm over the rationals whose sine and cosine are
polynomial approximations. -/
theorem perspective_degenerate_witness :
    perspective (Libm.mk Real.pi Real.sin Real.cos) (identity Mat.uninit) 60 1 1 1 =
      identity Mat.uninit ∧
    perspective (Libm.mk Real.pi Real.sin Real.cos) (identity Mat.uninit) 0 1 1 1024 =
      identity Mat.uninit ∧
    perspective (Libm.mk Real.pi Real.sin Real.cos) (identity Mat.uninit) 60 0 1 1024 =
      identity Mat.uninit ∧
    perspective (Libm.mk (355 / 113 : ℚ) (fun a => a - a ^ 3 / 6) (fun a => 1 - a ^ 2 / 2))
      scale_example 0 1 1 1024 = scale_example :=
  ⟨(perspective_degenerate (Libm.mk Real.pi Real.sin Real.cos) (identity Mat.uninit)
      60 1 1 1 (Or.inl rfl)).1,
   (perspective_degenerate (Libm.mk Real.pi Real.sin Real.cos) (identity Mat.uninit)
      0 1 1 1024 (Or.inr (Or.inl (by simp)))).1,
   (perspective_degenerate (Libm.mk Real.pi Real.sin Real.cos) (identity Mat.uninit)
      60 0 1 1024 (Or.inr (Or.inr rfl))).1,
   (perspective_degenerate
      (Libm.mk (355 / 113 : ℚ) (fun a => a - a ^ 3 / 6) (fun a => 1 - a ^ 2 / 2))
      scale_example 0 1 1 1024 (Or.inr (Or.inl (by norm_num)))).1⟩

/-! ### `rotate` -/

theorem toMatrix_identity [Field α] (m : Mat α) : toMatrix (identity m) = 1 := by
  ext i j
  fin_cases i <;> fin_cases j <;>
    simp [toMatrix, idx, identity, Mat.ofList, fin4_val_three, Matrix.one_apply]

/-- C9: starting from the identity, `rotate(M, theta, 0, 0, 1)` yields a matrix that maps the
row vector `(1, 0, 0, 1)` to `(cos(theta), sin(theta), 0, 1)`. -/
theorem rotate_z_maps_unit_x (theta : ℝ) (M0 : Mat ℝ) :
    Matrix.vecMul ![1, 0, 0, 1]
        (toMatrix (rotate (Libm.mk Real.pi Real.sin Real.cos) (identity M0) theta 0 0 1)) =
      ![Real.cos theta, Real.sin theta, 0, 1] := by
  unfold rotate
  rw [toMatrix_multiply, toMatrix_identity, Matrix.mul_one]
  funext j
  fin_cases j <;>
    simp [Matrix.vecMul, Matrix.dotProduct, Fin.sum_univ_succ, toMatrix, idx, rotate_r,
      Mat.ofList, fin4_val_three]

/-- C10: `rotate(M, theta, x, y, z)` is `multiply(M, R)` where the upper-left block of `R` is the
transpose of the Rodrigues matrix `cos(theta) * I + sin(theta) * [k]× + (1 - cos(theta)) * k kᵀ`
of the axis `k = (x, y, z)`, and the last row and last column of `R` are `(0, 0, 0, 1)`; for a
unit axis `R` leaves the axis fixed, `(x, y, z, 1) * R = (x, y, z, 1)`. -/
theorem rotate_is_rodrigues (M : Mat ℝ) (theta x y z : ℝ) :
    rotate (Libm.mk Real.pi Real.sin Real.cos) M theta x y z =
      multiply M (rotate_r (Libm.mk Real.pi Real.sin Real.cos) theta x y z) ∧
    block3 (rotate_r (Libm.mk Real.pi Real.sin Real.cos) theta x y z) =
      (rodrigues_spec (Real.cos theta) (Real.sin theta) ![x, y, z]).transpose ∧
    (∀ v : Fin 3 → ℝ, Matrix.mulVec (crossMatrix ![x, y, z]) v = crossProduct ![x, y, z] v) ∧
    LastColumn (rotate_r (Libm.mk Real.pi Real.sin Real.cos) theta x y z) ∧
    transRow (rotate_r (Libm.mk Real.pi Real.sin Real.cos) theta x y z) = 0 ∧
    (x ^ 2 + y ^ 2 + z ^ 2 = 1 →
      Matrix.vecMul ![x, y, z, 1]
          (toMatrix (rotate_r (Libm.mk Real.pi Real.sin Real.cos) theta x y z)) =
        ![x, y, z, 1]) := by
  refine ⟨rfl, ?_, ?_, ⟨rfl, rfl, rfl, rfl⟩, ?_, ?_⟩
  · ext i j
    fin_cases i <;> fin_cases j <;>
      simp [block3, rotate_r, Mat.ofList, rodrigues_spec, crossMatrix, Matrix.vecMulVec,
        Matrix.one_apply] <;> ring
  · intro v
    rw [cross_apply]
    funext i
    fin_cases i <;>
      simp [crossMatrix, Matrix.mulVec, Matrix.dotProduct, Fin.sum_univ_succ] <;> ring
  · funext j
    fin_cases j <;> rfl
  · intro hk
    funext j
    fin_cases j <;>
      simp [Matrix.vecMul, Matrix.dotProduct, Fin.sum_univ_succ, toMatrix, idx, rotate_r,
        Mat.ofList, fin4_val_three]
    · linear_combination (x * (1 - Real.cos theta)) * hk
    · linear_combination (y * (1 - Real.cos theta)) * hk
    · linear_combination (z * (1 - Real.cos theta)) * hk

/-- C10 at the axis `(0, 0, 1)` and a quarter turn: the axis is left fixed. -/
theorem rotate_is_rodrigues_witness :
    Matrix.vecMul ![0, 0, 1, 1]
        (toMatrix (rotate_r (Libm.mk Real.pi Real.sin Real.cos) (Real.pi / 2) 0 0 1)) =
      ![0, 0, 1, 1] :=
  (rotate_is_rodrigues (identity Mat.uninit) (Real.pi / 2) 0 0 1).2.2.2.2.2 (by norm_num)

/-! ### `translate`, `identity`, `transpose` -/

theorem toMatrix_translate_t [Field α] (x y z : α) :
    toMatrix (Mat.ofList [1, 0, 0, 0,  0, 1, 0, 0,  0, 0, 1, 0,  x, y, z, 1] rfl) =
      transl ![x, y, z] := by
  ext i j
  fin_cases i <;> fin_cases j <;>
    simp [toMatrix, idx, transl, Mat.ofList, fin4_val_three]

theorem toMatrix_translate [Field α] (M : Mat α) (x y z : α) :
    toMatrix (translate M x y z) = transl ![x, y, z] * toMatrix M := by
  unfold translate
  rw [toMatrix_multiply, toMatrix_translate_t]

theorem vecMul_transl [Field α] (x y z px py pz : α) :
    Matrix.vecMul ![px, py, pz, 1] (transl ![x, y, z]) = ![px + x, py + y, pz + z, 1] := by
  funext j
  fin_cases j <;>
    simp [Matrix.vecMul, Matrix.dotProduct, Fin.sum_univ_succ, transl]

/-- C11: `translate(M, x, y, z)` is `multiply(M, T)` where `T` is the identity with last row
`(x, y, z, 1)`; so a point `p = (px, py, pz, 1)` satisfies
`p * translate(M, x, y, z) = (px + x, py + y, pz + z, 1) * M`, and on the identity `p` is mapped
to `(px + x, py + y, pz + z, 1)`. -/
theorem translate_is_multiply [Field α] (M : Mat α) (x y z : α) :
    translate M x y z =
      multiply M (Mat.ofList [1, 0, 0, 0,  0, 1, 0, 0,  0, 0, 1, 0,  x, y, z, 1] rfl) ∧
    toMatrix (Mat.ofList [1, 0, 0, 0,  0, 1, 0, 0,  0, 0, 1, 0,  x, y, z, 1] rfl) =
      !![1, 0, 0, 0; 0, 1, 0, 0; 0, 0, 1, 0; x, y, z, 1] ∧
    (∀ px py pz : α, Matrix.vecMul ![px, py, pz, 1] (toMatrix (translate M x y z)) =
      Matrix.vecMul ![px + x, py + y, pz + z, 1] (toMatrix M)) ∧
    (∀ (M0 : Mat α) (px py pz : α),
      Matrix.vecMul ![px, py, pz, 1] (toMatrix (translate (identity M0) x y z)) =
        ![px + x, py + y, pz + z, 1]) := by
  refine ⟨rfl, ?_, ?_, ?_⟩
  · rw [toMatrix_translate_t]
    simp [transl]
  · intro px py pz
    rw [toMatrix_translate, ← Matrix.vecMul_vecMul, vecMul_transl]
  · intro M0 px py pz
    rw [toMatrix_translate, toMatrix_identity, Matrix.mul_one, vecMul_transl]

/-- C12: the matrix written by `identity`, whatever the array held before, has `1` on the
diagonal and `0` elsewhere and is neutral for `multiply` on both sides: `multiply(M, I) = M` and
`multiply(I, M) = M`; in particular `multiply(I, I)` is the identity. -/
theorem identity_neutral [Field α] (M X : Mat α) :
    (∀ i j : Fin 4, identity X (idx i j) = if i = j then 1 else 0) ∧
    multiply M (identity X) = M ∧
    multiply (identity X) M = M ∧
    (∀ Y Z : Mat α, multiply (identity X) (identity Y) = identity Z) := by
  refine ⟨?_, ?_, ?_, ?_⟩
  · intro i j
    fin_cases i <;> fin_cases j <;> rfl
  · apply toMatrix_injective
    rw [toMatrix_multiply, toMatrix_identity, Matrix.one_mul]
  · apply toMatrix_injective
    rw [toMatrix_multiply, toMatrix_identity, Matrix.mul_one]
  · intro Y Z
    apply toMatrix_injective
    rw [toMatrix_multiply, toMatrix_identity, toMatrix_identity, toMatrix_identity,
      Matrix.one_mul]

theorem toMatrix_transpose (M : Mat α) : toMatrix (transpose M) = (toMatrix M).transpose := by
  ext i j
  fin_cases i <;> fin_cases j <;> rfl

/-- C13: `transpose(M)` replaces `M` with its transpose: the new entry at index `4i + j` is the
old entry at index `4j + i`; the diagonal is unchanged and `transpose` applied twice gives the
original matrix. -/
theorem transpose_spec (M : Mat α) :
    (∀ i j : Fin 4, transpose M (idx i j) = M (idx j i)) ∧
    toMatrix (transpose M) = (toMatrix M).transpose ∧
    (∀ i : Fin 4, transpose M (idx i i) = M (idx i i)) ∧
    transpose (transpose M) = M := by
  have h : ∀ i j : Fin 4, transpose M (idx i j) = M (idx j i) := by
    intro i j
    fin_cases i <;> fin_cases j <;> rfl
  refine ⟨h, toMatrix_transpose M, fun i => h i i, ?_⟩
  funext k
  fin_cases k <;> rfl

/-- C18: `invert` checks nothing and always returns a matrix; on the uniform scale
`diag(2, 2, 2, 1)`, which is not a rotation-translation, it returns the same matrix, whose
product with the input is not the identity in either order. -/
theorem invert_scale_wrong :
    ¬ IsRigid scale_example ∧
    invert scale_example = scale_example ∧
    toMatrix scale_example * toMatrix (invert scale_example) ≠ 1 ∧
    toMatrix (invert scale_example) * toMatrix scale_example ≠ 1 := by
  have hinv : invert scale_example = scale_example := by
    funext k
    rw [invert, multiply_apply]
    fin_cases k <;>
      simp [multiply_entry, scale_example, identity, transpose, Mat.ofList, Function.update,
        Fin.coe_ofNat_eq_mod]
  have h00 : (toMatrix scale_example * toMatrix scale_example) 0 0 = 4 := by
    simp [Matrix.mul_apply, Fin.sum_univ_succ, toMatrix, idx, scale_example, Mat.ofList,
      fin4_val_three]
    norm_num
  have hne : toMatrix scale_example * toMatrix scale_example ≠ 1 := by
    intro h
    rw [h] at h00
    norm_num at h00
  refine ⟨?_, hinv, ?_, ?_⟩
  · intro hr
    have h0 := congrFun (congrFun hr.1 0) 0
    simp [Matrix.mul_apply, Fin.sum_univ_succ, block3, scale_example, Mat.ofList] at h0
    norm_num at h0
  · rw [hinv]; exact hne
  · rw [hinv]; exact hne

/-! ### `draw_gear` -/

theorem toMatrix_rotate_r_z [Field α] (L : Libm α) (angle : α) :
    toMatrix (rotate_r L angle 0 0 1) = rotZ (L.cos angle) (L.sin angle) := by
  ext i j
  fin_cases i <;> fin_cases j <;>
    simp [toMatrix, idx, rotZ, rotate_r, Mat.ofList, fin4_val_three, Matrix.vecHead,
      Matrix.vecTail]

theorem toMatrix_draw_model_view [Field α] (L : Libm α) (P : Mat α) (g : gear α)
    (transform : Mat α) (x y angle : α) (color : Fin 4 → α) :
    toMatrix (draw_gear L P g transform x y angle color).model_view =
      rotZ (L.cos (2 * L.M_PI * angle / 360)) (L.sin (2 * L.M_PI * angle / 360)) *
        transl ![x, y, 0] * toMatrix transform := by
  simp only [draw_gear, rotate]
  rw [toMatrix_multiply, toMatrix_translate, toMatrix_rotate_r_z, Matrix.mul_assoc]

/-- C19: `draw_gear` builds `model_view = Rz * T(x, y, 0) * transform`, with `Rz` the rotation
about Z by `2 * pi * angle / 360`, and `model_view_projection = model_view * ProjectionMatrix`;
so a row vector `p` is rotated, then translated, then transformed by `transform`, then
projected. `transform` and `ProjectionMatrix` are left as they were. -/
theorem draw_gear_model_view (P : Mat ℝ) (g : gear ℝ) (transform : Mat ℝ) (x y angle : ℝ)
    (color : Fin 4 → ℝ) :
    toMatrix (draw_gear (Libm.mk Real.pi Real.sin Real.cos) P g transform x y angle
        color).model_view =
      rotZ (Real.cos (2 * Real.pi * angle / 360)) (Real.sin (2 * Real.pi * angle / 360)) *
        transl ![x, y, 0] * toMatrix transform ∧
    toMatrix (draw_gear (Libm.mk Real.pi Real.sin Real.cos) P g transform x y angle
        color).model_view_projection =
      toMatrix (draw_gear (Libm.mk Real.pi Real.sin Real.cos) P g transform x y angle
        color).model_view * toMatrix P ∧
    (∀ p : Fin 4 → ℝ,
      Matrix.vecMul p (toMatrix (draw_gear (Libm.mk Real.pi Real.sin Real.cos) P g transform
          x y angle color).model_view_projection) =
        Matrix.vecMul (Matrix.vecMul (Matrix.vecMul (Matrix.vecMul p
          (rotZ (Real.cos (2 * Real.pi * angle / 360)) (Real.sin (2 * Real.pi * angle / 360))))
          (transl ![x, y, 0])) (toMatrix transform)) (toMatrix P)) ∧
    (draw_gear (Libm.mk Real.pi Real.sin Real.cos) P g transform x y angle color).transform =
      transform ∧
    (draw_gear (Libm.mk Real.pi Real.sin Real.cos) P g transform x y angle
      color).ProjectionMatrix = P := by
  have hmv := toMatrix_draw_model_view (Libm.mk Real.pi Real.sin Real.cos) P g transform x y
    angle color
  have hmvp : toMatrix (draw_gear (Libm.mk Real.pi Real.sin Real.cos) P g transform x y angle
        color).model_view_projection =
      toMatrix (draw_gear (Libm.mk Real.pi Real.sin Real.cos) P g transform x y angle
        color).model_view * toMatrix P := by
    simp only [draw_gear]
    rw [toMatrix_multiply]
  refine ⟨hmv, hmvp, ?_, rfl, rfl⟩
  intro p
  rw [hmvp, hmv]
  simp only [Matrix.vecMul_vecMul]

theorem lastColumn_multiply [Field α] (m n : Mat α) (hm : LastColumn m) (hn : LastColumn n) :
    LastColumn (multiply m n) ∧ block3 (multiply m n) = block3 n * block3 m := by
  obtain ⟨m3, m7, m11, m15⟩ := hm
  obtain ⟨n3, n7, n11, n15⟩ := hn
  refine ⟨⟨?_, ?_, ?_, ?_⟩, ?_⟩
  · rw [multiply_apply]
    simp [multiply_entry, Fin.coe_ofNat_eq_mod, m3, m7, m11, m15, n3, n7, n11, n15]
  · rw [multiply_apply]
    simp [multiply_entry, Fin.coe_ofNat_eq_mod, m3, m7, m11, m15, n3, n7, n11, n15]
  · rw [multiply_apply]
    simp [multiply_entry, Fin.coe_ofNat_eq_mod, m3, m7, m11, m15, n3, n7, n11, n15]
  · rw [multiply_apply]
    simp [multiply_entry, Fin.coe_ofNat_eq_mod, m3, m7, m11, m15, n3, n7, n11, n15]
  · ext i j
    simp only [block3, Matrix.of_apply, Matrix.mul_apply, Fin.sum_univ_succ, multiply_apply]
    fin_cases i <;> fin_cases j <;>
      simp [multiply_entry, n3, n7, n11] <;> ring

/-- The product of two pure rotation-translation matrices is one. -/
theorem isRigid_multiply [Field α] (m n : Mat α) (hm : IsRigid m) (hn : IsRigid n) :
    IsRigid (multiply m n) := by
  obtain ⟨hl, hb⟩ := lastColumn_multiply m n hm.2 hn.2
  refine ⟨?_, hl⟩
  rw [hb, Matrix.transpose_mul]
  calc block3 n * block3 m * ((block3 m).transpose * (block3 n).transpose)
      = block3 n * (block3 m * (block3 m).transpose) * (block3 n).transpose := by
        simp only [Matrix.mul_assoc]
    _ = 1 := by rw [hm.1, Matrix.mul_one, hn.1]

theorem isRigid_identity [Field α] (X : Mat α) : IsRigid (identity X) := by
  refine ⟨?_, rfl, rfl, rfl, rfl⟩
  ext i j
  fin_cases i <;> fin_cases j <;>
    simp [block3, identity, Mat.ofList, Matrix.mul_apply, Fin.sum_univ_succ, Matrix.one_apply]

theorem isRigid_translate [Field α] (m : Mat α) (x y z : α) (hm : IsRigid m) :
    IsRigid (translate m x y z) := by
  apply isRigid_multiply m _ hm
  refine ⟨?_, rfl, rfl, rfl, rfl⟩
  ext i j
  fin_cases i <;> fin_cases j <;>
    simp [block3, Mat.ofList, Matrix.mul_apply, Fin.sum_univ_succ, Matrix.one_apply]

theorem isRigid_rotate_z (m : Mat ℝ) (angle : ℝ) (hm : IsRigid m) :
    IsRigid (rotate (Libm.mk Real.pi Real.sin Real.cos) m angle 0 0 1) := by
  apply isRigid_multiply m _ hm
  refine ⟨?_, rfl, rfl, rfl, rfl⟩
  have hsc := Real.sin_sq_add_cos_sq angle
  ext i j
  fin_cases i <;> fin_cases j <;>
    simp [block3, rotate_r, Mat.ofList, Matrix.mul_apply, Fin.sum_univ_succ, Matrix.one_apply]
  · linear_combination hsc
  · ring
  · ring
  · linear_combination hsc

theorem block3_transpose (m : Mat α) : block3 (transpose m) = (block3 m).transpose := by
  ext i j
  fin_cases i <;> fin_cases j <;> rfl

/-- C20: for a pure rotation-translation `transform`, the model-view matrix of `draw_gear` is a
pure rotation-translation, and the normal matrix `transpose(invert(model_view))` is its
inverse-transpose: the transpose of the normal matrix multiplied with `model_view` is the
identity (in both orders), and the upper-left 3x3 block of the normal matrix is the rotation
block of `model_view`. -/
theorem draw_gear_normal_matrix (P : Mat ℝ) (g : gear ℝ) (transform : Mat ℝ) (x y angle : ℝ)
    (color : Fin 4 → ℝ) (h : IsRigid transform) :
    (draw_gear (Libm.mk Real.pi Real.sin Real.cos) P g transform x y angle color).normal_matrix =
      transpose (invert (draw_gear (Libm.mk Real.pi Real.sin Real.cos) P g transform x y angle
        color).model_view) ∧
    IsRigid (draw_gear (Libm.mk Real.pi Real.sin Real.cos) P g transform x y angle
      color).model_view ∧
    (toMatrix (draw_gear (Libm.mk Real.pi Real.sin Real.cos) P g transform x y angle
        color).normal_matrix).transpose *
      toMatrix (draw_gear (Libm.mk Real.pi Real.sin Real.cos) P g transform x y angle
        color).model_view = 1 ∧
    toMatrix (draw_gear (Libm.mk Real.pi Real.sin Real.cos) P g transform x y angle
        color).model_view *
      (toMatrix (draw_gear (Libm.mk Real.pi Real.sin Real.cos) P g transform x y angle
        color).normal_matrix).transpose = 1 ∧
    block3 (draw_gear (Libm.mk Real.pi Real.sin Real.cos) P g transform x y angle
        color).normal_matrix =
      block3 (draw_gear (Libm.mk Real.pi Real.sin Real.cos) P g transform x y angle
        color).model_view := by
  have hn : (draw_gear (Libm.mk Real.pi Real.sin Real.cos) P g transform x y angle
        color).normal_matrix =
      transpose (invert (draw_gear (Libm.mk Real.pi Real.sin Real.cos) P g transform x y angle
        color).model_view) := rfl
  have hr : IsRigid (draw_gear (Libm.mk Real.pi Real.sin Real.cos) P g transform x y angle
      color).model_view :=
    isRigid_rotate_z _ _ (isRigid_translate _ _ _ _ h)
  obtain ⟨hb, _, _, h1, h2⟩ := invert_spec _ hr
  refine ⟨hn, hr, ?_, ?_, ?_⟩
  · rw [hn, toMatrix_transpose, Matrix.transpose_transpose]
    exact h2
  · rw [hn, toMatrix_transpose, Matrix.transpose_transpose]
    exact h1
  · rw [hn, block3_transpose, hb, Matrix.transpose_transpose]

/-- C20 for gear 1 of the scene at angle 90 with the identity as `transform`. -/
theorem draw_gear_normal_matrix_witness :
    IsRigid (identity (Mat.uninit : Mat ℝ)) ∧
    block3 (draw_gear (Libm.mk Real.pi Real.sin Real.cos) (identity Mat.uninit)
        (gear.mk [] 0 [] 0) (identity Mat.uninit) (-3) (-2) 90 ![0.8, 0.1, 0, 1]).normal_matrix =
      block3 (draw_gear (Libm.mk Real.pi Real.sin Real.cos) (identity Mat.uninit)
        (gear.mk [] 0 [] 0) (identity Mat.uninit) (-3) (-2) 90 ![0.8, 0.1, 0, 1]).model_view :=
  ⟨isRigid_identity _,
    (draw_gear_normal_matrix (identity Mat.uninit) (gear.mk [] 0 [] 0) (identity Mat.uninit)
      (-3) (-2) 90 ![0.8, 0.1, 0, 1] (isRigid_identity _)).2.2.2.2⟩

/-! ## Theorems: gear mesh generator -/

theorem front_face_eq [Field α] (p : Fin 7 → point α) (width : α) (st : GearBuild α) :
    (front_face p width st).vertices = st.vertices ++ emitted (front_face p width) ∧
    (front_face p width st).strips =
      st.strips ++ [{ first := (st.vertices.length : Int), count := 7 }] ∧
    (emitted (front_face p width)).length = 7 := by
  refine ⟨?_, ?_, ?_⟩
  · simp [front_face, START_STRIP, SET_NORMAL, GEAR_VERT, vert, END_STRIP, emitted,
      GearBuild.init]
  · simp [front_face, START_STRIP, SET_NORMAL, GEAR_VERT, vert, END_STRIP]
  · simp [front_face, START_STRIP, SET_NORMAL, GEAR_VERT, vert, END_STRIP, emitted,
      GearBuild.init]

theorem back_face_eq [Field α] (p : Fin 7 → point α) (width : α) (st : GearBuild α) :
    (back_face p width st).vertices = st.vertices ++ emitted (back_face p width) ∧
    (back_face p width st).strips =
      st.strips ++ [{ first := (st.vertices.length : Int), count := 7 }] ∧
    (emitted (back_face p width)).length = 7 := by
  refine ⟨?_, ?_, ?_⟩
  · simp [back_face, START_STRIP, SET_NORMAL, GEAR_VERT, vert, END_STRIP, emitted,
      GearBuild.init]
  · simp [back_face, START_STRIP, SET_NORMAL, GEAR_VERT, vert, END_STRIP]
  · simp [back_face, START_STRIP, SET_NORMAL, GEAR_VERT, vert, END_STRIP, emitted,
      GearBuild.init]

theorem quad_strip_eq [Field α] (p : Fin 7 → point α) (width : α) (p1 p2 : Fin 7)
    (st : GearBuild α) :
    (quad_strip p width p1 p2 st).vertices = st.vertices ++ emitted (quad_strip p width p1 p2) ∧
    (quad_strip p width p1 p2 st).strips =
      st.strips ++ [{ first := (st.vertices.length : Int), count := 4 }] ∧
    (emitted (quad_strip p width p1 p2)).length = 4 := by
  refine ⟨?_, ?_, ?_⟩
  · simp [quad_strip, QUAD_WITH_NORMAL, START_STRIP, SET_NORMAL, GEAR_VERT, vert, END_STRIP,
      emitted, GearBuild.init]
  · simp [quad_strip, QUAD_WITH_NORMAL, START_STRIP, SET_NORMAL, GEAR_VERT, vert, END_STRIP]
  · simp [quad_strip, QUAD_WITH_NORMAL, START_STRIP, SET_NORMAL, GEAR_VERT, vert, END_STRIP,
      emitted, GearBuild.init]

theorem tooth_vertices_length [Field α] (p : Fin 7 → point α) (width : α) :
    (tooth_vertices p width).length = 34 := by
  simp [tooth_vertices, (front_face_eq p width GearBuild.init).2.2,
    (back_face_eq p width GearBuild.init).2.2,
    fun a b => (quad_strip_eq p width a b GearBuild.init).2.2]

theorem tooth_strips_length (b : Int) : (tooth_strips b).length = 7 := rfl

theorem gear_tooth_eq [Field α] (L : Libm α) (r0 r1 r2 da width : α) (teeth : Int)
    (st : GearBuild α) (i : Nat) :
    (gear_tooth L r0 r1 r2 da width teeth st i).vertices =
      st.vertices ++ tooth_vertices (gear_points L r0 r1 r2 da teeth i) width ∧
    (gear_tooth L r0 r1 r2 da width teeth st i).strips =
      st.strips ++ tooth_strips (st.vertices.length : Int) := by
  have hf := fun st => front_face_eq (gear_points L r0 r1 r2 da teeth i) width st
  have hb := fun st => back_face_eq (gear_points L r0 r1 r2 da teeth i) width st
  have hq := fun a b st => quad_strip_eq (gear_points L r0 r1 r2 da teeth i) width a b st
  have lf := (hf GearBuild.init).2.2
  have lb := (hb GearBuild.init).2.2
  have lq := fun a b => (hq a b GearBuild.init).2.2
  refine ⟨?_, ?_⟩
  · simp only [gear_tooth, tooth_vertices, (hq _ _ _).1, (hb _).1, (hf _).1,
      List.append_assoc]
  · simp only [gear_tooth, tooth_strips, (hq _ _ _).1, (hq _ _ _).2.1, lq,
      (hb _).1, (hb _).2.1, lb, (hf _).1, (hf _).2.1, lf, List.append_assoc,
      List.length_append, List.singleton_append, List.cons_append, List.nil_append]
    simp only [Nat.cast_add, Nat.cast_ofNat, List.cons.injEq, vertex_strip.mk.injEq,
      List.append_cancel_left_eq, and_true, true_and]
    omega

theorem flatMap_range_length {β : Type} (f : Nat → List β) (k : Nat)
    (hk : ∀ i, (f i).length = k) (n : Nat) : ((List.range n).flatMap f).length = k * n := by
  induction n with
  | zero => simp
  | succ n ih =>
    rw [List.range_succ, List.flatMap_append, List.length_append, ih, List.flatMap_singleton, hk,
      Nat.mul_succ]

theorem flatMap_range_getElem? {β : Type} (f : Nat → List β) (k : Nat)
    (hk : ∀ i, (f i).length = k) (n i j : Nat) (hi : i < n) (hj : j < k) :
    ((List.range n).flatMap f)[k * i + j]? = (f i)[j]? := by
  induction n with
  | zero => omega
  | succ n ih =>
    rw [List.range_succ, List.flatMap_append, List.flatMap_singleton]
    have hlen := flatMap_range_length f k hk n
    by_cases hin : i < n
    · have h1 : k * (i + 1) ≤ k * n := Nat.mul_le_mul_left k hin
      rw [Nat.mul_succ] at h1
      rw [List.getElem?_append_left (by omega)]
      exact ih hin
    · have hn : i = n := by omega
      subst hn
      rw [List.getElem?_append_right (by omega), hlen]
      congr 1
      omega

theorem flatMap_range_slice {β : Type} (f : Nat → List β) (k : Nat)
    (hk : ∀ i, (f i).length = k) (n i : Nat) (hi : i < n) :
    (((List.range n).flatMap f).drop (k * i)).take k = f i := by
  induction n with
  | zero => omega
  | succ n ih =>
    rw [List.range_succ, List.flatMap_append, List.flatMap_singleton]
    have hlen := flatMap_range_length f k hk n
    by_cases hin : i < n
    · have h1 : k * (i + 1) ≤ k * n := Nat.mul_le_mul_left k hin
      rw [Nat.mul_succ] at h1
      rw [List.drop_append_of_le_length (by omega), List.take_append_of_le_length]
      · exact ih hin
      · rw [List.length_drop]; omega
    · have hn : i = n := by omega
      subst hn
      rw [← hlen, List.drop_left, ← hk i, List.take_length]

/-- The state after `n` iterations of the loop of `create_gear`. -/
theorem gear_loop_eq [Field α] (L : Libm α) (r0 r1 r2 da width : α) (teeth : Int) (n : Nat) :
    ((List.range n).foldl (gear_tooth L r0 r1 r2 da width teeth) GearBuild.init).vertices =
      (List.range n).flatMap (fun i => tooth_vertices (gear_points L r0 r1 r2 da teeth i) width) ∧
    ((List.range n).foldl (gear_tooth L r0 r1 r2 da width teeth) GearBuild.init).strips =
      (List.range n).flatMap (fun i => tooth_strips (34 * (i : Int))) := by
  induction n with
  | zero => exact ⟨rfl, rfl⟩
  | succ n ih =>
    obtain ⟨ihv, ihs⟩ := ih
    have hlen := flatMap_range_length
      (fun i => tooth_vertices (gear_points L r0 r1 r2 da teeth i) width) 34
      (fun i => tooth_vertices_length _ _) n
    rw [List.range_succ, List.foldl_append, List.flatMap_append, List.flatMap_append,
      List.flatMap_singleton, List.flatMap_singleton]
    simp only [List.foldl_cons, List.foldl_nil]
    rw [(gear_tooth_eq ..).1, (gear_tooth_eq ..).2, ihv, ihs, hlen]
    exact ⟨rfl, by push_cast; rfl⟩

/-- What a gear returned by `create_gear` holds. -/
theorem create_gear_ok [Field α] (L : Libm α) (heap : Heap)
    (inner_radius outer_radius width : α) (teeth : Int) (tooth_depth : α) (g : gear α)
    (h : create_gear L heap inner_radius outer_radius width teeth tooth_depth = Outcome.ok g) :
    g.nstrips = 7 * teeth ∧
    g.nvertices = (g.vertices.length : Int) ∧
    g.vertices = (List.range teeth.toNat).flatMap (fun i => tooth_vertices
      (gear_points L inner_radius (outer_radius - tooth_depth / 2)
        (outer_radius + tooth_depth / 2) (2 * L.M_PI / teeth / 4) teeth i) width) ∧
    g.strips = (List.range teeth.toNat).flatMap (fun i => tooth_strips (34 * (i : Int))) := by
  unfold create_gear int_mul at h
  split_ifs at h with h1 h2 h3 h4
  · simp only [Outcome.ok.injEq] at h
    subst h
    exact ⟨rfl, rfl, (gear_loop_eq ..).1, (gear_loop_eq ..).2⟩

/-- When the three allocations succeed and `34 * teeth` fits an `int`, `create_gear` returns a
gear. -/
theorem create_gear_returns [Field α] (L : Libm α) (heap : Heap)
    (inner_radius outer_radius width : α) (teeth : Int) (tooth_depth : α)
    (h : 1 ≤ teeth) (hfit : 34 * teeth ≤ INT_MAX)
    (hg : heap.gear_ok = true) (hs : heap.strips_ok = true) (hv : heap.vertices_ok = true) :
    ∃ g, create_gear L heap inner_radius outer_radius width teeth tooth_depth = Outcome.ok g := by
  have h7 : INT_MIN ≤ STRIPS_PER_TOOTH * teeth ∧ STRIPS_PER_TOOTH * teeth ≤ INT_MAX := by
    simp only [INT_MIN, INT_MAX, STRIPS_PER_TOOTH] at *
    omega
  have h34 : INT_MIN ≤ VERTICES_PER_TOOTH * teeth ∧ VERTICES_PER_TOOTH * teeth ≤ INT_MAX := by
    simp only [INT_MIN, INT_MAX, VERTICES_PER_TOOTH] at *
    omega
  unfold create_gear int_mul
  rw [if_neg (by simp [hg]), if_pos h7, if_pos h34]
  simp only []
  rw [if_neg (by simp [hs, hv])]
  exact ⟨_, rfl⟩

theorem tooth_strips_getElem? (b : Int) (j : Nat) (hj : j < 7) :
    (tooth_strips b)[j]? = some { first := b + strip_offset j, count := strip_count j } := by
  interval_cases j <;> simp [tooth_strips, strip_offset, strip_count]

/-- Closed form of the strip array of a returned gear. -/
theorem create_gear_strip [Field α] (L : Libm α) (heap : Heap)
    (inner_radius outer_radius width : α) (teeth : Int) (tooth_depth : α) (g : gear α)
    (h : create_gear L heap inner_radius outer_radius width teeth tooth_depth = Outcome.ok g)
    (k : Nat) :
    g.strips[k]? =
      if k < 7 * teeth.toNat then
        some { first := 34 * ((k / 7 : Nat) : Int) + strip_offset (k % 7),
               count := strip_count (k % 7) }
      else none := by
  obtain ⟨_, _, _, hs⟩ := create_gear_ok L heap inner_radius outer_radius width teeth tooth_depth g h
  have hlen := flatMap_range_length (fun i => tooth_strips (34 * (i : Int))) 7
    (fun i => tooth_strips_length _) teeth.toNat
  rw [hs]
  split_ifs with hk
  · have hj : k % 7 < 7 := Nat.mod_lt _ (by decide)
    have hi : k / 7 < teeth.toNat := by omega
    have hkk : k = 7 * (k / 7) + k % 7 := by omega
    have := flatMap_range_getElem? (fun i => tooth_strips (34 * (i : Int))) 7
      (fun i => tooth_strips_length _) teeth.toNat (k / 7) (k % 7) hi hj
    rw [← hkk] at this
    rw [this, tooth_strips_getElem? _ _ hj]
  · apply List.getElem?_eq_none
    omega

theorem create_gear_lengths [Field α] (L : Libm α) (heap : Heap)
    (inner_radius outer_radius width : α) (teeth : Int) (tooth_depth : α) (g : gear α)
    (h : create_gear L heap inner_radius outer_radius width teeth tooth_depth = Outcome.ok g) :
    g.vertices.length = 34 * teeth.toNat ∧ g.strips.length = 7 * teeth.toNat := by
  obtain ⟨_, _, hv, hs⟩ := create_gear_ok L heap inner_radius outer_radius width teeth tooth_depth g h
  rw [hv, hs]
  exact ⟨flatMap_range_length _ 34 (fun i => tooth_vertices_length _ _) _,
    flatMap_range_length _ 7 (fun i => tooth_strips_length _) _⟩

/-- C1: for `teeth >= 1`, a gear returned by `create_gear` has `nvertices = 34 * teeth` and
`nstrips = 7 * teeth`, and these are the numbers of vertices and strips the loop has written;
`create_gear` does return a gear when its three allocations succeed and `34 * teeth` fits an
`int`. -/
theorem create_gear_counts [Field α] (L : Libm α) (heap : Heap)
    (inner_radius outer_radius width : α) (teeth : Int) (tooth_depth : α) (h : 1 ≤ teeth) :
    (∀ g, create_gear L heap inner_radius outer_radius width teeth tooth_depth = Outcome.ok g →
      g.nvertices = 34 * teeth ∧ g.nstrips = 7 * teeth ∧
      (g.vertices.length : Int) = 34 * teeth ∧ (g.strips.length : Int) = 7 * teeth) ∧
    (heap.gear_ok = true → heap.strips_ok = true → heap.vertices_ok = true →
      34 * teeth ≤ INT_MAX →
      ∃ g, create_gear L heap inner_radius outer_radius width teeth tooth_depth =
        Outcome.ok g) := by
  refine ⟨?_, ?_⟩
  · intro g hg
    obtain ⟨hns, hnv, _, _⟩ :=
      create_gear_ok L heap inner_radius outer_radius width teeth tooth_depth g hg
    obtain ⟨hlv, hls⟩ :=
      create_gear_lengths L heap inner_radius outer_radius width teeth tooth_depth g hg
    have ht : ((teeth.toNat : Nat) : Int) = teeth := Int.toNat_of_nonneg (by omega)
    refine ⟨?_, hns, ?_, ?_⟩
    · rw [hnv, hlv]; push_cast; rw [ht]
    · rw [hlv]; push_cast; rw [ht]
    · rw [hls]; push_cast; rw [ht]
  · intro hg hs hv hfit
    exact create_gear_returns L heap inner_radius outer_radius width teeth tooth_depth h hfit
      hg hs hv

/-- C1 at `create_gear(1.0, 4.0, 1.0, 20, 0.7)`: 680 vertices and 140 strips. -/
theorem create_gear_counts_witness :
    ∃ g, create_gear (Libm.mk Real.pi Real.sin Real.cos) (Heap.mk true true true)
        1 4 1 20 0.7 = Outcome.ok g ∧
      g.nvertices = 680 ∧ g.nstrips = 140 := by
  have h := create_gear_counts (Libm.mk Real.pi Real.sin Real.cos) (Heap.mk true true true)
    1 4 1 20 0.7 (by decide)
  obtain ⟨g, hg⟩ := h.2 rfl rfl rfl (by decide)
  exact ⟨g, hg, (h.1 g hg).1, (h.1 g hg).2.1⟩

theorem tooth_strips_count_sum (b : Int) :
    ((tooth_strips b).map vertex_strip.count).sum = 34 := rfl

theorem strips_count_sum (n : Nat) :
    (((List.range n).flatMap (fun i => tooth_strips (34 * (i : Int)))).map
      vertex_strip.count).sum = 34 * (n : Int) := by
  induction n with
  | zero => rfl
  | succ n ih =>
    rw [List.range_succ, List.flatMap_append, List.map_append, List.sum_append, ih,
      List.flatMap_singleton, tooth_strips_count_sum]
    push_cast
    ring

theorem strip_count_pos (j : Nat) : 0 < strip_count j := by
  unfold strip_count
  split <;> decide

/-- The strip `k` covers vertex `v` exactly when `k` is the strip computed from `v`. -/
theorem strip_covers_iff (v k : Nat) :
    (34 * ((k / 7 : Nat) : Int) + strip_offset (k % 7) ≤ (v : Int) ∧
      (v : Int) < 34 * ((k / 7 : Nat) : Int) + strip_offset (k % 7) + strip_count (k % 7)) ↔
    k = 7 * (v / 34) + strip_of_vertex (v % 34) := by
  have hj : k % 7 < 7 := Nat.mod_lt _ (by decide)
  have hr : v % 34 < 34 := Nat.mod_lt _ (by decide)
  obtain ⟨j, hjj⟩ : ∃ j, j = k % 7 := ⟨_, rfl⟩
  rw [← hjj]
  rw [← hjj] at hj
  unfold strip_of_vertex
  interval_cases j <;> simp only [strip_offset, strip_count] <;> split_ifs <;> omega

/-- C2: the strips of a gear returned by `create_gear` for `teeth >= 1` tile the vertex array.
There are `nstrips` of them, `strips[0].first = 0`, `strips[k+1].first = strips[k].first +
strips[k].count` for `k < nstrips - 1`, every count is positive, the counts sum to `nvertices`,
and every vertex index in `[0, nvertices)` lies in the range `[first, first + count)` of exactly
one strip. -/
theorem create_gear_strips_tile [Field α] (L : Libm α) (heap : Heap)
    (inner_radius outer_radius width : α) (teeth : Int) (tooth_depth : α) (g : gear α)
    (h : 1 ≤ teeth)
    (hg : create_gear L heap inner_radius outer_radius width teeth tooth_depth = Outcome.ok g) :
    (g.strips.length : Int) = g.nstrips ∧
    (∃ a, g.strips[0]? = some a ∧ a.first = 0) ∧
    (∀ k : Nat, (k : Int) < g.nstrips - 1 →
      ∃ a b, g.strips[k]? = some a ∧ g.strips[k + 1]? = some b ∧
        b.first = a.first + a.count) ∧
    (∀ k : Nat, (k : Int) < g.nstrips → ∃ a, g.strips[k]? = some a ∧ 0 < a.count) ∧
    (g.strips.map vertex_strip.count).sum = g.nvertices ∧
    (∀ v : Int, 0 ≤ v → v < g.nvertices →
      ∃! k : Nat, ∃ a, g.strips[k]? = some a ∧ a.first ≤ v ∧ v < a.first + a.count) := by
  obtain ⟨hns, hnv, _, hs⟩ :=
    create_gear_ok L heap inner_radius outer_radius width teeth tooth_depth g hg
  obtain ⟨hlv, hls⟩ :=
    create_gear_lengths L heap inner_radius outer_radius width teeth tooth_depth g hg
  have hat := create_gear_strip L heap inner_radius outer_radius width teeth tooth_depth g hg
  have ht : ((teeth.toNat : Nat) : Int) = teeth := Int.toNat_of_nonneg (by omega)
  refine ⟨?_, ?_, ?_, ?_, ?_, ?_⟩
  · rw [hls, hns]; push_cast; rw [ht]
  · have e0 := hat 0
    rw [if_pos (by omega)] at e0
    exact ⟨_, e0, by simp [strip_offset]⟩
  · intro k hk
    have hk1 : k + 1 < 7 * teeth.toNat := by omega
    have e0 := hat k
    rw [if_pos (by omega)] at e0
    have e1 := hat (k + 1)
    rw [if_pos hk1] at e1
    refine ⟨_, _, e0, e1, ?_⟩
    · simp only []
      have hj : k % 7 < 7 := Nat.mod_lt _ (by decide)
      by_cases h6 : k % 7 = 6
      · have e1 : (k + 1) % 7 = 0 := by omega
        have e2 : (k + 1) / 7 = k / 7 + 1 := by omega
        rw [e1, e2, h6]
        simp only [strip_offset, strip_count]
        push_cast
        ring
      · have e1 : (k + 1) % 7 = k % 7 + 1 := by omega
        have e2 : (k + 1) / 7 = k / 7 := by omega
        rw [e1, e2]
        obtain ⟨j, hjj⟩ : ∃ j, j = k % 7 := ⟨_, rfl⟩
        rw [← hjj]
        rw [← hjj] at hj h6
        interval_cases j <;> simp [strip_offset, strip_count] <;> omega
  · intro k hk
    have e0 := hat k
    rw [if_pos (by omega)] at e0
    exact ⟨_, e0, strip_count_pos _⟩
  · rw [hs, strips_count_sum, hnv, hlv]
    push_cast
    rfl
  · intro v hv0 hv1
    obtain ⟨vn, rfl⟩ := Int.eq_ofNat_of_zero_le hv0
    have hvn : vn < 34 * teeth.toNat := by omega
    have hr : vn % 34 < 34 := Nat.mod_lt _ (by decide)
    have hsv : strip_of_vertex (vn % 34) < 7 := by
      unfold strip_of_vertex
      split_ifs <;> omega
    refine ⟨7 * (vn / 34) + strip_of_vertex (vn % 34), ?_, ?_⟩
    · have e0 := hat (7 * (vn / 34) + strip_of_vertex (vn % 34))
      rw [if_pos (by omega)] at e0
      exact ⟨_, e0, (strip_covers_iff vn _).mpr rfl⟩
    · rintro k ⟨a, hka, hkv⟩
      rw [hat] at hka
      split_ifs at hka with hlt
      simp only [Option.some.injEq] at hka
      subst hka
      exact (strip_covers_iff vn k).mp hkv

/-- C2 at `create_gear(1.0, 4.0, 1.0, 20, 0.7)`. -/
theorem create_gear_strips_tile_witness :
    ∃ g, create_gear (Libm.mk Real.pi Real.sin Real.cos) (Heap.mk true true true)
        1 4 1 20 0.7 = Outcome.ok g ∧
      (g.strips.map vertex_strip.count).sum = g.nvertices ∧
      (∃ a, g.strips[0]? = some a ∧ a.first = 0) := by
  obtain ⟨g, hg⟩ := create_gear_returns (Libm.mk Real.pi Real.sin Real.cos)
    (Heap.mk true true true) 1 4 1 20 0.7 (by decide) (by decide) rfl rfl rfl
  have h := create_gear_strips_tile (Libm.mk Real.pi Real.sin Real.cos)
    (Heap.mk true true true) 1 4 1 20 0.7 g (by decide) hg
  exact ⟨g, hg, h.2.2.2.2.1, h.2.1⟩

theorem slice_of_slice {β : Type} (l : List β) (a b c n : Nat) (hbc : b + c ≤ n) :
    (l.drop (a + b)).take c = (((l.drop a).take n).drop b).take c := by
  rw [List.drop_take, List.take_take, List.drop_drop, Nat.min_eq_left (by omega)]

theorem append_slice {β : Type} (xs ys zs : List β) (b c : Nat) (hb : xs.length = b)
    (hc : ys.length = c) : ((xs ++ ys ++ zs).drop b).take c = ys := by
  subst hb hc
  rw [List.append_assoc, List.drop_left, List.take_left]

/-- The seven strips of a tooth, as slices of its 34 vertices. -/
theorem tooth_vertices_slices [Field α] (p : Fin 7 → point α) (width : α) :
    ((tooth_vertices p width).drop 0).take 7 = emitted (front_face p width) ∧
    ((tooth_vertices p width).drop 7).take 4 = emitted (quad_strip p width 4 6) ∧
    ((tooth_vertices p width).drop 11).take 7 = emitted (back_face p width) ∧
    ((tooth_vertices p width).drop 18).take 4 = emitted (quad_strip p width 0 2) ∧
    ((tooth_vertices p width).drop 22).take 4 = emitted (quad_strip p width 1 0) ∧
    ((tooth_vertices p width).drop 26).take 4 = emitted (quad_strip p width 3 1) ∧
    ((tooth_vertices p width).drop 30).take 4 = emitted (quad_strip p width 5 3) := by
  have lf := (front_face_eq p width GearBuild.init).2.2
  have lb := (back_face_eq p width GearBuild.init).2.2
  have lq := fun a b => (quad_strip_eq p width a b GearBuild.init).2.2
  refine ⟨?_, ?_, ?_, ?_, ?_, ?_, ?_⟩
  · have e : tooth_vertices p width = [] ++ emitted (front_face p width) ++
        (emitted (quad_strip p width 4 6) ++ emitted (back_face p width) ++
          emitted (quad_strip p width 0 2) ++ emitted (quad_strip p width 1 0) ++
          emitted (quad_strip p width 3 1) ++ emitted (quad_strip p width 5 3)) := by
      simp only [tooth_vertices, List.append_assoc, List.nil_append]
    rw [e]
    exact append_slice _ _ _ 0 7 rfl lf
  · have e : tooth_vertices p width = emitted (front_face p width) ++
        emitted (quad_strip p width 4 6) ++ (emitted (back_face p width) ++
          emitted (quad_strip p width 0 2) ++ emitted (quad_strip p width 1 0) ++
          emitted (quad_strip p width 3 1) ++ emitted (quad_strip p width 5 3)) := by
      simp only [tooth_vertices, List.append_assoc]
    rw [e]
    exact append_slice _ _ _ 7 4 lf (lq _ _)
  · have e : tooth_vertices p width = (emitted (front_face p width) ++
        emitted (quad_strip p width 4 6)) ++ emitted (back_face p width) ++
          (emitted (quad_strip p width 0 2) ++ emitted (quad_strip p width 1 0) ++
          emitted (quad_strip p width 3 1) ++ emitted (quad_strip p width 5 3)) := by
      simp only [tooth_vertices, List.append_assoc]
    rw [e]
    exact append_slice _ _ _ 11 7 (by simp [lf, lq]) lb
  · have e : tooth_vertices p width = (emitted (front_face p width) ++
        emitted (quad_strip p width 4 6) ++ emitted (back_face p width)) ++
          emitted (quad_strip p width 0 2) ++ (emitted (quad_strip p width 1 0) ++
          emitted (quad_strip p width 3 1) ++ emitted (quad_strip p width 5 3)) := by
      simp only [tooth_vertices, List.append_assoc]
    rw [e]
    exact append_slice _ _ _ 18 4 (by simp [lf, lq, lb]) (lq _ _)
  · have e : tooth_vertices p width = (emitted (front_face p width) ++
        emitted (quad_strip p width 4 6) ++ emitted (back_face p width) ++
          emitted (quad_strip p width 0 2)) ++ emitted (quad_strip p width 1 0) ++
          (emitted (quad_strip p width 3 1) ++ emitted (quad_strip p width 5 3)) := by
      simp only [tooth_vertices, List.append_assoc]
    rw [e]
    exact append_slice _ _ _ 22 4 (by simp [lf, lq, lb]) (lq _ _)
  · have e : tooth_vertices p width = (emitted (front_face p width) ++
        emitted (quad_strip p width 4 6) ++ emitted (back_face p width) ++
          emitted (quad_strip p width 0 2) ++ emitted (quad_strip p width 1 0)) ++
          emitted (quad_strip p width 3 1) ++ (emitted (quad_strip p width 5 3)) := by
      simp only [tooth_vertices, List.append_assoc]
    rw [e]
    exact append_slice _ _ _ 26 4 (by simp [lf, lq, lb]) (lq _ _)
  · have e : tooth_vertices p width = (emitted (front_face p width) ++
        emitted (quad_strip p width 4 6) ++ emitted (back_face p width) ++
          emitted (quad_strip p width 0 2) ++ emitted (quad_strip p width 1 0) ++
          emitted (quad_strip p width 3 1)) ++ emitted (quad_strip p width 5 3) ++ [] := by
      simp only [tooth_vertices, List.append_assoc, List.append_nil]
    rw [e]
    exact append_slice _ _ _ 30 4 (by simp [lf, lq, lb]) (lq _ _)

/-- C3: for every tooth `i` of a gear returned by `create_gear`, the strips `7i .. 7i+6` have
first indices `34i + 0, 7, 11, 18, 22, 26, 30` and counts `7, 4, 7, 4, 4, 4, 4`, and their
vertex ranges hold, in this order, what the front-face block, the inner-face quad `(4, 6)`, the
back-face block and the four outer-face quads `(0, 2)`, `(1, 0)`, `(3, 1)`, `(5, 3)` write for
the points `p` of that tooth. -/
theorem create_gear_tooth_strips [Field α] (L : Libm α) (heap : Heap)
    (inner_radius outer_radius width : α) (teeth : Int) (tooth_depth : α) (g : gear α)
    (h : 1 ≤ teeth)
    (hg : create_gear L heap inner_radius outer_radius width teeth tooth_depth = Outcome.ok g)
    (i : Nat) (hi : (i : Int) < teeth) (p : Fin 7 → point α)
    (hp : p = gear_points L inner_radius (outer_radius - tooth_depth / 2)
      (outer_radius + tooth_depth / 2) (2 * L.M_PI / teeth / 4) teeth i) :
    (g.strips[7 * i]? = some { first := 34 * i, count := 7 } ∧
     g.strips[7 * i + 1]? = some { first := 34 * i + 7, count := 4 } ∧
     g.strips[7 * i + 2]? = some { first := 34 * i + 11, count := 7 } ∧
     g.strips[7 * i + 3]? = some { first := 34 * i + 18, count := 4 } ∧
     g.strips[7 * i + 4]? = some { first := 34 * i + 22, count := 4 } ∧
     g.strips[7 * i + 5]? = some { first := 34 * i + 26, count := 4 } ∧
     g.strips[7 * i + 6]? = some { first := 34 * i + 30, count := 4 }) ∧
    ((g.vertices.drop (34 * i + 0)).take 7 = emitted (front_face p width) ∧
     (g.vertices.drop (34 * i + 7)).take 4 = emitted (quad_strip p width 4 6) ∧
     (g.vertices.drop (34 * i + 11)).take 7 = emitted (back_face p width) ∧
     (g.vertices.drop (34 * i + 18)).take 4 = emitted (quad_strip p width 0 2) ∧
     (g.vertices.drop (34 * i + 22)).take 4 = emitted (quad_strip p width 1 0) ∧
     (g.vertices.drop (34 * i + 26)).take 4 = emitted (quad_strip p width 3 1) ∧
     (g.vertices.drop (34 * i + 30)).take 4 = emitted (quad_strip p width 5 3)) := by
  obtain ⟨_, _, hv, hs⟩ :=
    create_gear_ok L heap inner_radius outer_radius width teeth tooth_depth g hg
  have hin : i < teeth.toNat := by omega
  have hstrip : ∀ j, j < 7 → g.strips[7 * i + j]? =
      some { first := 34 * (i : Int) + strip_offset j, count := strip_count j } := by
    intro j hj
    rw [hs, flatMap_range_getElem? (fun i => tooth_strips (34 * (i : Int))) 7
      (fun i => tooth_strips_length _) teeth.toNat i j hin hj, tooth_strips_getElem? _ _ hj]
  have hslice : (g.vertices.drop (34 * i)).take 34 = tooth_vertices p width := by
    rw [hv, hp]
    exact flatMap_range_slice _ 34 (fun i => tooth_vertices_length _ _) teeth.toNat i hin
  obtain ⟨s0, s1, s2, s3, s4, s5, s6⟩ := tooth_vertices_slices p width
  refine ⟨⟨?_, ?_, ?_, ?_, ?_, ?_, ?_⟩, ⟨?_, ?_, ?_, ?_, ?_, ?_, ?_⟩⟩
  · simpa [strip_offset, strip_count] using hstrip 0 (by decide)
  · simpa [strip_offset, strip_count] using hstrip 1 (by decide)
  · simpa [strip_offset, strip_count] using hstrip 2 (by decide)
  · simpa [strip_offset, strip_count] using hstrip 3 (by decide)
  · simpa [strip_offset, strip_count] using hstrip 4 (by decide)
  · simpa [strip_offset, strip_count] using hstrip 5 (by decide)
  · simpa [strip_offset, strip_count] using hstrip 6 (by decide)
  · rw [slice_of_slice _ _ _ _ 34 (by decide), hslice, s0]
  · rw [slice_of_slice _ _ _ _ 34 (by decide), hslice, s1]
  · rw [slice_of_slice _ _ _ _ 34 (by decide), hslice, s2]
  · rw [slice_of_slice _ _ _ _ 34 (by decide), hslice, s3]
  · rw [slice_of_slice _ _ _ _ 34 (by decide), hslice, s4]
  · rw [slice_of_slice _ _ _ _ 34 (by decide), hslice, s5]
  · rw [slice_of_slice _ _ _ _ 34 (by decide), hslice, s6]

/-- C3 at tooth 3 of `create_gear(1.0, 4.0, 1.0, 20, 0.7)`: strips 21 to 27. -/
theorem create_gear_tooth_strips_witness :
    ∃ g, create_gear (Libm.mk Real.pi Real.sin Real.cos) (Heap.mk true true true)
        1 4 1 20 0.7 = Outcome.ok g ∧
      g.strips[21]? = some { first := 102, count := 7 } ∧
      g.strips[22]? = some { first := 109, count := 4 } ∧
      g.strips[23]? = some { first := 113, count := 7 } ∧
      g.strips[24]? = some { first := 120, count := 4 } ∧
      g.strips[25]? = some { first := 124, count := 4 } ∧
      g.strips[26]? = some { first := 128, count := 4 } ∧
      g.strips[27]? = some { first := 132, count := 4 } := by
  obtain ⟨g, hg⟩ := create_gear_returns (Libm.mk Real.pi Real.sin Real.cos)
    (Heap.mk true true true) 1 4 1 20 0.7 (by decide) (by decide) rfl rfl rfl
  have h := (create_gear_tooth_strips (Libm.mk Real.pi Real.sin Real.cos)
    (Heap.mk true true true) 1 4 1 20 0.7 g (by decide) hg 3 (by decide) _ rfl).1
  norm_num at h
  exact ⟨g, hg, h⟩

/-! ### The vertices of a tooth -/

theorem getElem?_of_slice {β : Type} (l : List β) (a c j : Nat) (hj : j < c) :
    l[a + j]? = ((l.drop a).take c)[j]? := by
  rw [List.getElem?_take_of_lt hj, List.getElem?_drop]

/-- The vertex ranges of the seven strips of tooth `i` of a returned gear. -/
theorem create_gear_slices [Field α] (L : Libm α) (heap : Heap)
    (inner_radius outer_radius width : α) (teeth : Int) (tooth_depth : α) (g : gear α)
    (hg : create_gear L heap inner_radius outer_radius width teeth tooth_depth = Outcome.ok g)
    (i : Nat) (hi : (i : Int) < teeth) (p : Fin 7 → point α)
    (hp : p = gear_points L inner_radius (outer_radius - tooth_depth / 2)
      (outer_radius + tooth_depth / 2) (2 * L.M_PI / teeth / 4) teeth i) :
    (g.vertices.drop (34 * i + 0)).take 7 = emitted (front_face p width) ∧
    (g.vertices.drop (34 * i + 7)).take 4 = emitted (quad_strip p width 4 6) ∧
    (g.vertices.drop (34 * i + 11)).take 7 = emitted (back_face p width) ∧
    (g.vertices.drop (34 * i + 18)).take 4 = emitted (quad_strip p width 0 2) ∧
    (g.vertices.drop (34 * i + 22)).take 4 = emitted (quad_strip p width 1 0) ∧
    (g.vertices.drop (34 * i + 26)).take 4 = emitted (quad_strip p width 3 1) ∧
    (g.vertices.drop (34 * i + 30)).take 4 = emitted (quad_strip p width 5 3) := by
  obtain ⟨_, _, hv, _⟩ :=
    create_gear_ok L heap inner_radius outer_radius width teeth tooth_depth g hg
  have hin : i < teeth.toNat := by omega
  have hslice : (g.vertices.drop (34 * i)).take 34 = tooth_vertices p width := by
    rw [hv, hp]
    exact flatMap_range_slice _ 34 (fun i => tooth_vertices_length _ _) teeth.toNat i hin
  obtain ⟨s0, s1, s2, s3, s4, s5, s6⟩ := tooth_vertices_slices p width
  refine ⟨?_, ?_, ?_, ?_, ?_, ?_, ?_⟩
  · rw [slice_of_slice _ _ _ _ 34 (by decide), hslice, s0]
  · rw [slice_of_slice _ _ _ _ 34 (by decide), hslice, s1]
  · rw [slice_of_slice _ _ _ _ 34 (by decide), hslice, s2]
  · rw [slice_of_slice _ _ _ _ 34 (by decide), hslice, s3]
  · rw [slice_of_slice _ _ _ _ 34 (by decide), hslice, s4]
  · rw [slice_of_slice _ _ _ _ 34 (by decide), hslice, s5]
  · rw [slice_of_slice _ _ _ _ 34 (by decide), hslice, s6]

/-- The strip descriptor `7i + j` of a returned gear. -/
theorem create_gear_strip_of_tooth [Field α] (L : Libm α) (heap : Heap)
    (inner_radius outer_radius width : α) (teeth : Int) (tooth_depth : α) (g : gear α)
    (hg : create_gear L heap inner_radius outer_radius width teeth tooth_depth = Outcome.ok g)
    (i : Nat) (hi : (i : Int) < teeth) (j : Nat) (hj : j < 7) :
    g.strips[7 * i + j]? =
      some { first := 34 * (i : Int) + strip_offset j, count := strip_count j } := by
  obtain ⟨_, _, _, hs⟩ :=
    create_gear_ok L heap inner_radius outer_radius width teeth tooth_depth g hg
  have hin : i < teeth.toNat := by omega
  rw [hs, flatMap_range_getElem? (fun i => tooth_strips (34 * (i : Int))) 7
    (fun i => tooth_strips_length _) teeth.toNat i j hin hj, tooth_strips_getElem? _ _ hj]

/-- The seven vertices the front-face block writes. -/
theorem emitted_front_face [Field α] (p : Fin 7 → point α) (width : α) :
    emitted (front_face p width) =
      [![(p 0).x, (p 0).y, width / 2, 0, 0, 1], ![(p 1).x, (p 1).y, width / 2, 0, 0, 1],
       ![(p 2).x, (p 2).y, width / 2, 0, 0, 1], ![(p 3).x, (p 3).y, width / 2, 0, 0, 1],
       ![(p 4).x, (p 4).y, width / 2, 0, 0, 1], ![(p 5).x, (p 5).y, width / 2, 0, 0, 1],
       ![(p 6).x, (p 6).y, width / 2, 0, 0, 1]] := by
  simp [emitted, front_face, START_STRIP, SET_NORMAL, GEAR_VERT, vert, END_STRIP,
    GearBuild.init, div_eq_mul_inv]

/-- The seven vertices the back-face block writes. -/
theorem emitted_back_face [Field α] (p : Fin 7 → point α) (width : α) :
    emitted (back_face p width) =
      [![(p 6).x, (p 6).y, -(width / 2), 0, 0, -1], ![(p 5).x, (p 5).y, -(width / 2), 0, 0, -1],
       ![(p 4).x, (p 4).y, -(width / 2), 0, 0, -1], ![(p 3).x, (p 3).y, -(width / 2), 0, 0, -1],
       ![(p 2).x, (p 2).y, -(width / 2), 0, 0, -1], ![(p 1).x, (p 1).y, -(width / 2), 0, 0, -1],
       ![(p 0).x, (p 0).y, -(width / 2), 0, 0, -1]] := by
  simp [emitted, back_face, START_STRIP, SET_NORMAL, GEAR_VERT, vert, END_STRIP,
    GearBuild.init, div_eq_mul_inv]

/-- The four vertices a quad block writes. -/
theorem emitted_quad_strip [Field α] (p : Fin 7 → point α) (width : α) (a b : Fin 7) :
    emitted (quad_strip p width a b) = quad_vertices (p a) (p b) width := by
  simp [emitted, quad_strip, QUAD_WITH_NORMAL, START_STRIP, SET_NORMAL, GEAR_VERT, vert,
    END_STRIP, GearBuild.init, quad_vertices, div_eq_mul_inv]

/-- The vertices of the front and of the back strip of tooth `i` of a returned gear. -/
theorem create_gear_face_vertices [Field α] (L : Libm α) (heap : Heap)
    (inner_radius outer_radius width : α) (teeth : Int) (tooth_depth : α) (g : gear α)
    (hg : create_gear L heap inner_radius outer_radius width teeth tooth_depth = Outcome.ok g)
    (i : Nat) (hi : (i : Int) < teeth) (p : Fin 7 → point α)
    (hp : p = gear_points L inner_radius (outer_radius - tooth_depth / 2)
      (outer_radius + tooth_depth / 2) (2 * L.M_PI / teeth / 4) teeth i) :
    (∀ j : Fin 7, g.vertices[34 * i + j.val]? =
      some ![(p j).x, (p j).y, width / 2, 0, 0, 1]) ∧
    (∀ j : Fin 7, g.vertices[34 * i + 11 + j.val]? =
      some ![(p j.rev).x, (p j.rev).y, -(width / 2), 0, 0, -1]) := by
  obtain ⟨s0, _, s2, _⟩ := create_gear_slices L heap inner_radius outer_radius width teeth
    tooth_depth g hg i hi p hp
  refine ⟨?_, ?_⟩
  · intro j
    have e := getElem?_of_slice g.vertices (34 * i + 0) 7 j.val j.isLt
    rw [s0, emitted_front_face] at e
    rw [Nat.add_zero] at e
    rw [e]
    fin_cases j <;> rfl
  · intro j
    have e := getElem?_of_slice g.vertices (34 * i + 11) 7 j.val j.isLt
    rw [s2, emitted_back_face] at e
    rw [e]
    fin_cases j <;> rfl

/-- C14: for every tooth `i` of a gear built by `create_gear`, strip `7i` (first vertex `34i`,
7 vertices) holds the points `p0 .. p6` in that order at `z = +width/2` with normal `(0, 0, 1)`,
and strip `7i + 2` (first vertex `34i + 11`, 7 vertices) holds `p6 .. p0` at `z = -width/2` with
normal `(0, 0, -1)`; the back vertex `j` has the `x` and `y` of the front vertex `6 - j`. -/
theorem create_gear_faces [Field α] (L : Libm α) (heap : Heap)
    (inner_radius outer_radius width : α) (teeth : Int) (tooth_depth : α) (g : gear α)
    (hg : create_gear L heap inner_radius outer_radius width teeth tooth_depth = Outcome.ok g)
    (i : Nat) (hi : (i : Int) < teeth) (p : Fin 7 → point α)
    (hp : p = gear_points L inner_radius (outer_radius - tooth_depth / 2)
      (outer_radius + tooth_depth / 2) (2 * L.M_PI / teeth / 4) teeth i) :
    g.strips[7 * i]? = some { first := 34 * i, count := 7 } ∧
    g.strips[7 * i + 2]? = some { first := 34 * i + 11, count := 7 } ∧
    (∀ j : Fin 7, g.vertices[34 * i + j.val]? =
      some ![(p j).x, (p j).y, width / 2, 0, 0, 1]) ∧
    (∀ j : Fin 7, g.vertices[34 * i + 11 + j.val]? =
      some ![(p j.rev).x, (p j.rev).y, -(width / 2), 0, 0, -1]) ∧
    (∀ j : Fin 7, ∃ f b : GearVertex α,
      g.vertices[34 * i + (6 - j.val)]? = some f ∧ g.vertices[34 * i + 11 + j.val]? = some b ∧
      b 0 = f 0 ∧ b 1 = f 1) := by
  obtain ⟨hf, hb⟩ := create_gear_face_vertices L heap inner_radius outer_radius width teeth
    tooth_depth g hg i hi p hp
  have h0 := create_gear_strip_of_tooth L heap inner_radius outer_radius width teeth
    tooth_depth g hg i hi 0 (by decide)
  have h2 := create_gear_strip_of_tooth L heap inner_radius outer_radius width teeth
    tooth_depth g hg i hi 2 (by decide)
  refine ⟨?_, ?_, hf, hb, ?_⟩
  · simpa [strip_offset, strip_count] using h0
  · simpa [strip_offset, strip_count] using h2
  · intro j
    have hrev : (j.rev : Nat) = 6 - j.val := by
      have := j.isLt
      simp only [Fin.val_rev]
      omega
    have hfr := hf j.rev
    rw [hrev] at hfr
    exact ⟨_, _, hfr, hb j, rfl, rfl⟩

/-- C14 at tooth 3 of `create_gear(1.0, 4.0, 1.0, 20, 0.7)`. -/
theorem create_gear_faces_witness :
    ∃ g, create_gear (Libm.mk Real.pi Real.sin Real.cos) (Heap.mk true true true)
        1 4 1 20 0.7 = Outcome.ok g ∧
      g.strips[21]? = some { first := 102, count := 7 } ∧
      g.strips[23]? = some { first := 113, count := 7 } := by
  obtain ⟨g, hg⟩ := create_gear_returns (Libm.mk Real.pi Real.sin Real.cos)
    (Heap.mk true true true) 1 4 1 20 0.7 (by decide) (by decide) rfl rfl rfl
  have h := create_gear_faces (Libm.mk Real.pi Real.sin Real.cos)
    (Heap.mk true true true) 1 4 1 20 0.7 g hg 3 (by decide) _ rfl
  have h1 := h.1
  have h2 := h.2.1
  norm_num at h1 h2
  exact ⟨g, hg, h1, h2⟩

/-- C15: for every tooth `i` of a gear built by `create_gear`, the inner quad `(4, 6)` (strip
`7i + 1`) and the four outer quads `(0, 2)`, `(1, 0)`, `(3, 1)`, `(5, 3)` (strips `7i + 3` to
`7i + 6`) each hold exactly the four vertices of `QUAD_WITH_NORMAL(a, b)`: `a` at `-width/2`,
`a` at `+width/2`, `b` at `-width/2`, `b` at `+width/2`, all with the normal
`(a.y - b.y, -(a.x - b.x), 0)`, which has zero `z` component and zero dot product with the
edge `a - b`. -/
theorem create_gear_quads [Field α] (L : Libm α) (heap : Heap)
    (inner_radius outer_radius width : α) (teeth : Int) (tooth_depth : α) (g : gear α)
    (hg : create_gear L heap inner_radius outer_radius width teeth tooth_depth = Outcome.ok g)
    (i : Nat) (hi : (i : Int) < teeth) (p : Fin 7 → point α)
    (hp : p = gear_points L inner_radius (outer_radius - tooth_depth / 2)
      (outer_radius + tooth_depth / 2) (2 * L.M_PI / teeth / 4) teeth i) :
    (g.strips[7 * i + 1]? = some { first := 34 * i + 7, count := 4 } ∧
      (g.vertices.drop (34 * i + 7)).take 4 = quad_vertices (p 4) (p 6) width) ∧
    (g.strips[7 * i + 3]? = some { first := 34 * i + 18, count := 4 } ∧
      (g.vertices.drop (34 * i + 18)).take 4 = quad_vertices (p 0) (p 2) width) ∧
    (g.strips[7 * i + 4]? = some { first := 34 * i + 22, count := 4 } ∧
      (g.vertices.drop (34 * i + 22)).take 4 = quad_vertices (p 1) (p 0) width) ∧
    (g.strips[7 * i + 5]? = some { first := 34 * i + 26, count := 4 } ∧
      (g.vertices.drop (34 * i + 26)).take 4 = quad_vertices (p 3) (p 1) width) ∧
    (g.strips[7 * i + 6]? = some { first := 34 * i + 30, count := 4 } ∧
      (g.vertices.drop (34 * i + 30)).take 4 = quad_vertices (p 5) (p 3) width) ∧
    (∀ a b : point α,
      quad_vertices a b width =
        [![a.x, a.y, -(width / 2), a.y - b.y, -(a.x - b.x), 0],
         ![a.x, a.y, width / 2, a.y - b.y, -(a.x - b.x), 0],
         ![b.x, b.y, -(width / 2), a.y - b.y, -(a.x - b.x), 0],
         ![b.x, b.y, width / 2, a.y - b.y, -(a.x - b.x), 0]] ∧
      (∀ v ∈ quad_vertices a b width,
        v 5 = 0 ∧ v 3 * (a.x - b.x) + v 4 * (a.y - b.y) + v 5 * 0 = 0)) := by
  obtain ⟨_, s1, _, s3, s4, s5, s6⟩ := create_gear_slices L heap inner_radius outer_radius
    width teeth tooth_depth g hg i hi p hp
  have hs := fun j hj => create_gear_strip_of_tooth L heap inner_radius outer_radius width teeth
    tooth_depth g hg i hi j hj
  refine ⟨⟨?_, ?_⟩, ⟨?_, ?_⟩, ⟨?_, ?_⟩, ⟨?_, ?_⟩, ⟨?_, ?_⟩, ?_⟩
  · simpa [strip_offset, strip_count] using hs 1 (by decide)
  · rw [s1, emitted_quad_strip]
  · simpa [strip_offset, strip_count] using hs 3 (by decide)
  · rw [s3, emitted_quad_strip]
  · simpa [strip_offset, strip_count] using hs 4 (by decide)
  · rw [s4, emitted_quad_strip]
  · simpa [strip_offset, strip_count] using hs 5 (by decide)
  · rw [s5, emitted_quad_strip]
  · simpa [strip_offset, strip_count] using hs 6 (by decide)
  · rw [s6, emitted_quad_strip]
  · intro a b
    refine ⟨rfl, ?_⟩
    intro v hv
    simp only [quad_vertices, List.mem_cons, List.mem_singleton, List.not_mem_nil,
      or_false] at hv
    rcases hv with rfl | rfl | rfl | rfl <;>
      exact ⟨rfl, by simp; ring⟩

/-- C15 at tooth 3 of `create_gear(1.0, 4.0, 1.0, 20, 0.7)`. -/
theorem create_gear_quads_witness :
    ∃ g, create_gear (Libm.mk Real.pi Real.sin Real.cos) (Heap.mk true true true)
        1 4 1 20 0.7 = Outcome.ok g ∧
      g.strips[22]? = some { first := 109, count := 4 } ∧
      ((g.vertices.drop 109).take 4).length = 4 := by
  obtain ⟨g, hg⟩ := create_gear_returns (Libm.mk Real.pi Real.sin Real.cos)
    (Heap.mk true true true) 1 4 1 20 0.7 (by decide) (by decide) rfl rfl rfl
  have h := (create_gear_quads (Libm.mk Real.pi Real.sin Real.cos)
    (Heap.mk true true true) 1 4 1 20 0.7 g hg 3 (by decide) _ rfl).1
  obtain ⟨h1, h2⟩ := h
  norm_num at h1 h2
  exact ⟨g, hg, h1, by rw [h2]; rfl⟩

/-- The seven points of tooth `i`, over the reals. -/
theorem gear_points_real (r0 r1 r2 da : ℝ) (teeth : Int) (i : Nat) (base : ℝ)
    (hbase : base = i * (2 * Real.pi / teeth)) (j : Fin 7) :
    (gear_points (Libm.mk Real.pi Real.sin Real.cos) r0 r1 r2 da teeth i j).x =
      ![r2, r2, r1, r1, r0, r1, r0] j *
        Real.cos (![base + da, base + 2 * da, base, base + 3 * da, base, base + 4 * da,
          base + 4 * da] j) ∧
    (gear_points (Libm.mk Real.pi Real.sin Real.cos) r0 r1 r2 da teeth i j).y =
      ![r2, r2, r1, r1, r0, r1, r0] j *
        Real.sin (![base + da, base + 2 * da, base, base + 3 * da, base, base + 4 * da,
          base + 4 * da] j) := by
  have e : (i : ℝ) * 2 * Real.pi / teeth = base := by rw [hbase]; ring
  have e2 : da * 2 = 2 * da := mul_comm _ _
  have e3 : da * 3 = 3 * da := mul_comm _ _
  have e4 : da * 4 = 4 * da := mul_comm _ _
  fin_cases j <;> simp [gear_points, GEAR_POINT, e, e2, e3, e4] <;> exact ⟨rfl, rfl⟩

/-- C16: with `base = i * (2*pi/teeth)`, `da = (2*pi/teeth)/4`, `r0 = inner_radius`,
`r1 = outer_radius - tooth_depth/2` and `r2 = outer_radius + tooth_depth/2`, the seven points of
tooth `i` are `p0 = r2` at `base + da`, `p1 = r2` at `base + 2da`, `p2 = r1` at `base`,
`p3 = r1` at `base + 3da`, `p4 = r0` at `base`, `p5 = r1` at `base + 4da`, `p6 = r0` at
`base + 4da`, a point being `(r cos a, r sin a)`; they are the `x, y` of the front-face vertices
`34i .. 34i + 6` of the returned gear, and each lies on the circle of its radius. -/
theorem create_gear_profile (heap : Heap) (inner_radius outer_radius width : ℝ) (teeth : Int)
    (tooth_depth : ℝ) (g : gear ℝ)
    (hg : create_gear (Libm.mk Real.pi Real.sin Real.cos) heap inner_radius outer_radius width
      teeth tooth_depth = Outcome.ok g)
    (i : Nat) (hi : (i : Int) < teeth) (base da r0 r1 r2 : ℝ)
    (hbase : base = i * (2 * Real.pi / teeth)) (hda : da = 2 * Real.pi / teeth / 4)
    (hr0 : r0 = inner_radius) (hr1 : r1 = outer_radius - tooth_depth / 2)
    (hr2 : r2 = outer_radius + tooth_depth / 2) :
    (∀ j : Fin 7, gear_points (Libm.mk Real.pi Real.sin Real.cos) r0 r1 r2 da teeth i j =
      { x := ![r2, r2, r1, r1, r0, r1, r0] j *
          Real.cos (![base + da, base + 2 * da, base, base + 3 * da, base, base + 4 * da,
            base + 4 * da] j)
        y := ![r2, r2, r1, r1, r0, r1, r0] j *
          Real.sin (![base + da, base + 2 * da, base, base + 3 * da, base, base + 4 * da,
            base + 4 * da] j) }) ∧
    (∀ j : Fin 7, g.vertices[34 * i + j.val]? =
      some ![![r2, r2, r1, r1, r0, r1, r0] j *
          Real.cos (![base + da, base + 2 * da, base, base + 3 * da, base, base + 4 * da,
            base + 4 * da] j),
        ![r2, r2, r1, r1, r0, r1, r0] j *
          Real.sin (![base + da, base + 2 * da, base, base + 3 * da, base, base + 4 * da,
            base + 4 * da] j),
        width / 2, 0, 0, 1]) ∧
    (∀ j : Fin 7,
      (![r2, r2, r1, r1, r0, r1, r0] j *
          Real.cos (![base + da, base + 2 * da, base, base + 3 * da, base, base + 4 * da,
            base + 4 * da] j)) ^ 2 +
        (![r2, r2, r1, r1, r0, r1, r0] j *
          Real.sin (![base + da, base + 2 * da, base, base + 3 * da, base, base + 4 * da,
            base + 4 * da] j)) ^ 2 =
      (![r2, r2, r1, r1, r0, r1, r0] j) ^ 2) := by
  have hpts := gear_points_real r0 r1 r2 da teeth i base hbase
  refine ⟨?_, ?_, ?_⟩
  · intro j
    rw [← (hpts j).1, ← (hpts j).2]
  · intro j
    have hf := (create_gear_face_vertices (Libm.mk Real.pi Real.sin Real.cos) heap inner_radius
      outer_radius width teeth tooth_depth g hg i hi
      (gear_points (Libm.mk Real.pi Real.sin Real.cos) r0 r1 r2 da teeth i)
      (by rw [hr0, hr1, hr2, hda])).1 j
    rw [hf, (hpts j).1, (hpts j).2]
  · intro j
    have hsc := Real.sin_sq_add_cos_sq
      (![base + da, base + 2 * da, base, base + 3 * da, base, base + 4 * da, base + 4 * da] j)
    linear_combination (![r2, r2, r1, r1, r0, r1, r0] j) ^ 2 * hsc

/-- C16 at tooth 3 of `create_gear(1.0, 4.0, 1.0, 20, 0.7)`: vertex 106 is the point `p4`, at
radius `r0 = 1` and angle `3 * (2*pi/20)`. -/
theorem create_gear_profile_witness :
    ∃ g, create_gear (Libm.mk Real.pi Real.sin Real.cos) (Heap.mk true true true)
        1 4 1 20 0.7 = Outcome.ok g ∧
      g.vertices[106]? = some ![1 * Real.cos (3 * (2 * Real.pi / 20)),
        1 * Real.sin (3 * (2 * Real.pi / 20)), 1 / 2, 0, 0, 1] := by
  obtain ⟨g, hg⟩ := create_gear_returns (Libm.mk Real.pi Real.sin Real.cos)
    (Heap.mk true true true) 1 4 1 20 0.7 (by decide) (by decide) rfl rfl rfl
  have h := create_gear_profile (Heap.mk true true true) 1 4 1 20 0.7 g hg 3 (by decide)
    (((3 : Nat) : ℝ) * (2 * Real.pi / ((20 : Int) : ℝ))) (2 * Real.pi / ((20 : Int) : ℝ) / 4)
    1 (4 - 0.7 / 2) (4 + 0.7 / 2) rfl rfl rfl rfl rfl
  have h1 := h.2.1 4
  norm_num at h1
  refine ⟨g, hg, ?_⟩
  norm_num
  exact h1

/-- C17: `create_gear` returns `NULL` when the allocation of the gear record fails, but it does
not check the two `calloc` results: when the strip array or the vertex array cannot be
allocated, `create_gear(1.0, 4.0, 1.0, 20, 0.7)` does not return `NULL`; its first iteration
stores through the null pointer. -/
theorem create_gear_calloc_unchecked :
    create_gear (Libm.mk Real.pi Real.sin Real.cos) (Heap.mk false true true) 1 4 1 20 0.7 =
      Outcome.null ∧
    create_gear (Libm.mk Real.pi Real.sin Real.cos) (Heap.mk true false true) 1 4 1 20 0.7 =
      Outcome.undefined ∧
    create_gear (Libm.mk Real.pi Real.sin Real.cos) (Heap.mk true true false) 1 4 1 20 0.7 =
      Outcome.undefined ∧
    create_gear (Libm.mk Real.pi Real.sin Real.cos) (Heap.mk true false true) 1 4 1 20 0.7 ≠
      Outcome.null := by
  refine ⟨rfl, rfl, rfl, ?_⟩
  intro h
  have h2 : create_gear (Libm.mk Real.pi Real.sin Real.cos) (Heap.mk true false true)
      1 4 1 20 0.7 = Outcome.undefined := rfl
  rw [h2] at h
  cases h

/-! ### Rotations about a unit axis -/

/-- The array `r` of `rotate` is a pure rotation when the axis is a unit vector. -/
theorem isRigid_rotate_r (angle x y z : ℝ) (hk : x ^ 2 + y ^ 2 + z ^ 2 = 1) :
    IsRigid (rotate_r (Libm.mk Real.pi Real.sin Real.cos) angle x y z) := by
  refine ⟨?_, rfl, rfl, rfl, rfl⟩
  have hsc := Real.sin_sq_add_cos_sq angle
  have hb : block3 (rotate_r (Libm.mk Real.pi Real.sin Real.cos) angle x y z) =
      !![x * x * (1 - Real.cos angle) + Real.cos angle,
         y * x * (1 - Real.cos angle) + z * Real.sin angle,
         x * z * (1 - Real.cos angle) - y * Real.sin angle;
         x * y * (1 - Real.cos angle) - z * Real.sin angle,
         y * y * (1 - Real.cos angle) + Real.cos angle,
         y * z * (1 - Real.cos angle) + x * Real.sin angle;
         x * z * (1 - Real.cos angle) + y * Real.sin angle,
         y * z * (1 - Real.cos angle) - x * Real.sin angle,
         z * z * (1 - Real.cos angle) + Real.cos angle] := by
    ext i j
    fin_cases i <;> fin_cases j <;> rfl
  rw [hb]
  ext i j
  fin_cases i <;> fin_cases j <;>
    simp [Matrix.mul_apply, Fin.sum_univ_three, Matrix.vecHead, Matrix.vecTail]
  · linear_combination (Real.sin angle ^ 2 + x * x * (1 - Real.cos angle) ^ 2) * hk +
      (1 - x * x) * hsc
  · linear_combination (x * y * (1 - Real.cos angle) ^ 2) * hk + (0 - x * y) * hsc
  · linear_combination (x * z * (1 - Real.cos angle) ^ 2) * hk + (0 - x * z) * hsc
  · linear_combination (y * x * (1 - Real.cos angle) ^ 2) * hk + (0 - y * x) * hsc
  · linear_combination (Real.sin angle ^ 2 + y * y * (1 - Real.cos angle) ^ 2) * hk +
      (1 - y * y) * hsc
  · linear_combination (y * z * (1 - Real.cos angle) ^ 2) * hk + (0 - y * z) * hsc
  · linear_combination (z * x * (1 - Real.cos angle) ^ 2) * hk + (0 - z * x) * hsc
  · linear_combination (z * y * (1 - Real.cos angle) ^ 2) * hk + (0 - z * y) * hsc
  · linear_combination (Real.sin angle ^ 2 + z * z * (1 - Real.cos angle) ^ 2) * hk +
      (1 - z * z) * hsc

theorem isRigid_rotate (m : Mat ℝ) (angle x y z : ℝ) (hm : IsRigid m)
    (hk : x ^ 2 + y ^ 2 + z ^ 2 = 1) :
    IsRigid (rotate (Libm.mk Real.pi Real.sin Real.cos) m angle x y z) :=
  isRigid_multiply m _ hm (isRigid_rotate_r angle x y z hk)

theorem isRigid_apply_calls (calls : List (TransformCall ℝ)) :
    ∀ m : Mat ℝ, IsRigid m → (∀ c ∈ calls, c.UnitAxis) →
      IsRigid (apply_calls (Libm.mk Real.pi Real.sin Real.cos) m calls) := by
  induction calls with
  | nil => intro m hm _; exact hm
  | cons c cs ih =>
    intro m hm hc
    have hc0 : c.UnitAxis := hc c (List.mem_cons_self _ _)
    have hcs : ∀ d ∈ cs, d.UnitAxis := fun d hd => hc d (List.mem_cons_of_mem _ hd)
    unfold apply_calls
    rw [List.foldl_cons]
    cases c with
    | translate x y z => exact ih _ (isRigid_translate m x y z hm) hcs
    | rotate angle x y z => exact ih _ (isRigid_rotate m angle x y z hm hc0) hcs

theorem redraw_transform_eq_calls [Field α] (L : Libm α) (view_rot : Fin 3 → α) :
    redraw_transform L view_rot =
      apply_calls L (identity Mat.uninit)
        [TransformCall.translate 0 0 (-20),
         TransformCall.rotate (2 * L.M_PI * view_rot 0 / 360) 1 0 0,
         TransformCall.rotate (2 * L.M_PI * view_rot 1 / 360) 0 1 0,
         TransformCall.rotate (2 * L.M_PI * view_rot 2 / 360) 0 0 1] := rfl

theorem isRigid_redraw_transform (view_rot : Fin 3 → ℝ) :
    IsRigid (redraw_transform (Libm.mk Real.pi Real.sin Real.cos) view_rot) := by
  rw [redraw_transform_eq_calls]
  apply isRigid_apply_calls _ _ (isRigid_identity _)
  intro c hc
  simp only [List.mem_cons, List.mem_singleton, List.not_mem_nil, or_false] at hc
  rcases hc with rfl | rfl | rfl | rfl
  · trivial
  · show (1 : ℝ) ^ 2 + 0 ^ 2 + 0 ^ 2 = 1
    norm_num
  · show (0 : ℝ) ^ 2 + 1 ^ 2 + 0 ^ 2 = 1
    norm_num
  · show (0 : ℝ) ^ 2 + 0 ^ 2 + 1 ^ 2 = 1
    norm_num

theorem rotate_identity [Field α] (L : Libm α) (M0 : Mat α) (angle x y z : α) :
    rotate L (identity M0) angle x y z = rotate_r L angle x y z := by
  unfold rotate
  apply toMatrix_injective
  rw [toMatrix_multiply, toMatrix_identity, Matrix.mul_one]

/-- C22: for a unit axis, `rotate` on the identity gives a pure rotation: its upper-left block
`R` satisfies `R * Rᵀ = 1` and its last row and last column are `(0, 0, 0, 1)`. Hence every
matrix built from the identity by `translate` calls and `rotate` calls about unit axes is a
rotation-translation, the precondition of `invert`; this covers the `transform` that `redraw`
builds and the model-view matrix `draw_gear` builds from it. -/
theorem rotate_unit_axis_rigid (theta x y z : ℝ) (M0 : Mat ℝ)
    (hk : x ^ 2 + y ^ 2 + z ^ 2 = 1) :
    (block3 (rotate (Libm.mk Real.pi Real.sin Real.cos) (identity M0) theta x y z) *
        (block3 (rotate (Libm.mk Real.pi Real.sin Real.cos) (identity M0) theta x y z)).transpose
        = 1 ∧
      LastColumn (rotate (Libm.mk Real.pi Real.sin Real.cos) (identity M0) theta x y z) ∧
      transRow (rotate (Libm.mk Real.pi Real.sin Real.cos) (identity M0) theta x y z) = 0) ∧
    IsRigid (rotate (Libm.mk Real.pi Real.sin Real.cos) (identity M0) theta x y z) ∧
    (∀ calls : List (TransformCall ℝ), (∀ c ∈ calls, c.UnitAxis) →
      IsRigid (apply_calls (Libm.mk Real.pi Real.sin Real.cos) (identity M0) calls)) ∧
    (∀ view_rot : Fin 3 → ℝ,
      redraw_transform (Libm.mk Real.pi Real.sin Real.cos) view_rot =
        apply_calls (Libm.mk Real.pi Real.sin Real.cos) (identity Mat.uninit)
          [TransformCall.translate 0 0 (-20),
           TransformCall.rotate (2 * Real.pi * view_rot 0 / 360) 1 0 0,
           TransformCall.rotate (2 * Real.pi * view_rot 1 / 360) 0 1 0,
           TransformCall.rotate (2 * Real.pi * view_rot 2 / 360) 0 0 1] ∧
      IsRigid (redraw_transform (Libm.mk Real.pi Real.sin Real.cos) view_rot)) ∧
    (∀ (view_rot : Fin 3 → ℝ) (P : Mat ℝ) (g : gear ℝ) (gx gy angle : ℝ) (color : Fin 4 → ℝ),
      IsRigid (draw_gear (Libm.mk Real.pi Real.sin Real.cos) P g
        (redraw_transform (Libm.mk Real.pi Real.sin Real.cos) view_rot) gx gy angle
        color).model_view) := by
  have hr : IsRigid (rotate (Libm.mk Real.pi Real.sin Real.cos) (identity M0) theta x y z) :=
    isRigid_rotate _ theta x y z (isRigid_identity M0) hk
  refine ⟨⟨hr.1, hr.2, ?_⟩, hr, ?_, ?_, ?_⟩
  · rw [rotate_identity]
    funext j
    fin_cases j <;> rfl
  · intro calls hc
    exact isRigid_apply_calls calls _ (isRigid_identity M0) hc
  · intro view_rot
    exact ⟨rfl, isRigid_redraw_transform view_rot⟩
  · intro view_rot P g gx gy angle color
    exact isRigid_rotate_z _ _ (isRigid_translate _ _ _ _ (isRigid_redraw_transform view_rot))

/-- C22 at the axis `(0, 1, 0)` and the angle `pi / 3`. -/
theorem rotate_unit_axis_rigid_witness :
    IsRigid (rotate (Libm.mk Real.pi Real.sin Real.cos) (identity Mat.uninit)
      (Real.pi / 3) 0 1 0) :=
  (rotate_unit_axis_rigid (Real.pi / 3) 0 1 0 Mat.uninit (by norm_num)).2.1

/-! ### The draw calls of `draw_gear` -/

theorem draws_eq [Field α] (L : Libm α) (P : Mat α) (g : gear α) (transform : Mat α)
    (x y angle : α) (color : Fin 4 → α) :
    (draw_gear L P g transform x y angle color).draws =
      (List.range g.nstrips.toNat).map
        (fun n => g.strips.getD n { first := 0, count := 0 }) := rfl

/-- For a gear whose `nstrips` is the number of its strips, the draw calls are its strips. -/
theorem draws_eq_strips [Field α] (L : Libm α) (P : Mat α) (g : gear α) (transform : Mat α)
    (x y angle : α) (color : Fin 4 → α) (h : g.nstrips.toNat = g.strips.length) :
    (draw_gear L P g transform x y angle color).draws = g.strips := by
  rw [draws_eq, h]
  apply List.ext_getElem?
  intro n
  by_cases hn : n < g.strips.length
  · rw [List.getElem?_map, List.getElem?_range hn]
    simp [List.getD_eq_getElem?_getD, List.getElem?_eq_getElem hn]
  · rw [List.getElem?_eq_none (by simpa using hn), List.getElem?_eq_none (by simpa using hn)]

/-- C21: `draw_gear` issues one `glDrawArrays` call per `n < nstrips`, in order, the `n`-th
with the `first` and `count` of `strips[n]`. For a gear returned by `create_gear` with
`teeth >= 1` the calls are exactly its strips, every range lies in `[0, nvertices)` and every
vertex index in `[0, nvertices)` lies in the range of exactly one call. -/
theorem draw_gear_draws [Field α] (L : Libm α) (P : Mat α) (g : gear α) (transform : Mat α)
    (x y angle : α) (color : Fin 4 → α) :
    (draw_gear L P g transform x y angle color).draws.length = g.nstrips.toNat ∧
    (0 ≤ g.nstrips →
      ((draw_gear L P g transform x y angle color).draws.length : Int) = g.nstrips) ∧
    (∀ n : Nat, n < g.nstrips.toNat →
      (draw_gear L P g transform x y angle color).draws[n]? =
        some (g.strips.getD n { first := 0, count := 0 })) ∧
    (∀ n : Nat, n < g.nstrips.toNat → n < g.strips.length →
      (draw_gear L P g transform x y angle color).draws[n]? = g.strips[n]?) ∧
    (∀ (heap : Heap) (inner_radius outer_radius width : α) (teeth : Int) (tooth_depth : α),
      1 ≤ teeth →
      create_gear L heap inner_radius outer_radius width teeth tooth_depth = Outcome.ok g →
      (draw_gear L P g transform x y angle color).draws = g.strips ∧
      (∀ a ∈ (draw_gear L P g transform x y angle color).draws,
        0 ≤ a.first ∧ 0 < a.count ∧ a.first + a.count ≤ g.nvertices) ∧
      (∀ v : Int, 0 ≤ v → v < g.nvertices →
        ∃! n : Nat, ∃ a, (draw_gear L P g transform x y angle color).draws[n]? = some a ∧
          a.first ≤ v ∧ v < a.first + a.count)) := by
  have hlen : (draw_gear L P g transform x y angle color).draws.length = g.nstrips.toNat := by
    rw [draws_eq, List.length_map, List.length_range]
  have hget : ∀ n : Nat, n < g.nstrips.toNat →
      (draw_gear L P g transform x y angle color).draws[n]? =
        some (g.strips.getD n { first := 0, count := 0 }) := by
    intro n hn
    rw [draws_eq, List.getElem?_map, List.getElem?_range hn]
    rfl
  refine ⟨hlen, ?_, hget, ?_, ?_⟩
  · intro h0
    rw [hlen]
    exact Int.toNat_of_nonneg h0
  · intro n hn hs
    rw [hget n hn, List.getD_eq_getElem?_getD, List.getElem?_eq_getElem hs]
    rfl
  · intro heap inner_radius outer_radius width teeth tooth_depth ht hg
    obtain ⟨hns, hnv, _, _⟩ :=
      create_gear_ok L heap inner_radius outer_radius width teeth tooth_depth g hg
    obtain ⟨hlv, hls⟩ :=
      create_gear_lengths L heap inner_radius outer_radius width teeth tooth_depth g hg
    have hat := create_gear_strip L heap inner_radius outer_radius width teeth tooth_depth g hg
    have htn : ((teeth.toNat : Nat) : Int) = teeth := Int.toNat_of_nonneg (by omega)
    have hcount : g.nstrips.toNat = g.strips.length := by
      rw [hls, hns]
      omega
    have hd := draws_eq_strips L P g transform x y angle color hcount
    rw [hd]
    refine ⟨rfl, ?_, ?_⟩
    · intro a ha
      obtain ⟨k, hk, hka⟩ := List.getElem_of_mem ha
      have hk2 : g.strips[k]? = some a := by
        rw [List.getElem?_eq_getElem hk, hka]
      rw [hat, if_pos (by omega)] at hk2
      simp only [Option.some.injEq] at hk2
      subst hk2
      have hj : k % 7 < 7 := Nat.mod_lt _ (by decide)
      have hq : k / 7 + 1 ≤ teeth.toNat := by omega
      have hq2 : (((k / 7 : Nat) : Int)) + 1 ≤ teeth := by omega
      simp only []
      rw [hnv, hlv]
      push_cast
      rw [htn]
      obtain ⟨j, hjj⟩ : ∃ j, j = k % 7 := ⟨_, rfl⟩
      rw [← hjj]
      rw [← hjj] at hj
      interval_cases j <;> simp only [strip_offset, strip_count] <;> omega
    · intro v hv0 hv1
      obtain ⟨vn, rfl⟩ := Int.eq_ofNat_of_zero_le hv0
      have hvn : vn < 34 * teeth.toNat := by omega
      have hr : vn % 34 < 34 := Nat.mod_lt _ (by decide)
      have hsv : strip_of_vertex (vn % 34) < 7 := by
        unfold strip_of_vertex
        split_ifs <;> omega
      refine ⟨7 * (vn / 34) + strip_of_vertex (vn % 34), ?_, ?_⟩
      · have e0 := hat (7 * (vn / 34) + strip_of_vertex (vn % 34))
        rw [if_pos (by omega)] at e0
        exact ⟨_, e0, (strip_covers_iff vn _).mpr rfl⟩
      · rintro k ⟨a, hka, hkv⟩
        rw [hat] at hka
        split_ifs at hka with hlt
        simp only [Option.some.injEq] at hka
        subst hka
        exact (strip_covers_iff vn k).mp hkv

/-- C21 at `create_gear(1.0, 4.0, 1.0, 20, 0.7)`: 140 draw calls, the strips of the gear. -/
theorem draw_gear_draws_witness :
    ∃ g, create_gear (Libm.mk Real.pi Real.sin Real.cos) (Heap.mk true true true)
        1 4 1 20 0.7 = Outcome.ok g ∧
      (draw_gear (Libm.mk Real.pi Real.sin Real.cos) (identity Mat.uninit) g
        (identity Mat.uninit) (-3) (-2) 0 ![0.8, 0.1, 0, 1]).draws = g.strips ∧
      (draw_gear (Libm.mk Real.pi Real.sin Real.cos) (identity Mat.uninit) g
        (identity Mat.uninit) (-3) (-2) 0 ![0.8, 0.1, 0, 1]).draws.length = 140 := by
  obtain ⟨g, hg⟩ := create_gear_returns (Libm.mk Real.pi Real.sin Real.cos)
    (Heap.mk true true true) 1 4 1 20 0.7 (by decide) (by decide) rfl rfl rfl
  have h := draw_gear_draws (Libm.mk Real.pi Real.sin Real.cos) (identity Mat.uninit) g
    (identity Mat.uninit) (-3) (-2) 0 ![0.8, 0.1, 0, 1]
  have hs := (h.2.2.2.2 (Heap.mk true true true) 1 4 1 20 0.7 (by decide) hg).1
  have hn := (create_gear_ok _ _ _ _ _ _ _ g hg).1
  refine ⟨g, hg, hs, ?_⟩
  rw [h.1, hn]
  rfl

/-! ### The rim and the quad normals -/

theorem point_eq (a b : point α) (hx : a.x = b.x) (hy : a.y = b.y) : a = b := by
  cases a
  cases b
  simp only [point.mk.injEq]
  exact ⟨hx, hy⟩

/-- Point 5 of a tooth is point 2 of the next tooth, and point 6 is point 4 of the next tooth,
the tooth after the last being tooth 0. -/
theorem gear_points_next (r0 r1 r2 : ℝ) (teeth : Int) (h : 1 ≤ teeth) (i : Nat)
    (hi : (i : Int) < teeth) :
    gear_points (Libm.mk Real.pi Real.sin Real.cos) r0 r1 r2 (2 * Real.pi / teeth / 4) teeth i 5 =
      gear_points (Libm.mk Real.pi Real.sin Real.cos) r0 r1 r2 (2 * Real.pi / teeth / 4) teeth
        ((i + 1) % teeth.toNat) 2 ∧
    gear_points (Libm.mk Real.pi Real.sin Real.cos) r0 r1 r2 (2 * Real.pi / teeth / 4) teeth i 6 =
      gear_points (Libm.mk Real.pi Real.sin Real.cos) r0 r1 r2 (2 * Real.pi / teeth / 4) teeth
        ((i + 1) % teeth.toNat) 4 := by
  have hp := gear_points_real r0 r1 r2 (2 * Real.pi / teeth / 4) teeth i
    (i * (2 * Real.pi / teeth)) rfl
  have hq := gear_points_real r0 r1 r2 (2 * Real.pi / teeth / 4) teeth ((i + 1) % teeth.toNat)
    (((i + 1) % teeth.toNat : Nat) * (2 * Real.pi / teeth)) rfl
  have h5x : (gear_points (Libm.mk Real.pi Real.sin Real.cos) r0 r1 r2
      (2 * Real.pi / teeth / 4) teeth i 5).x =
      r1 * Real.cos (i * (2 * Real.pi / teeth) + 4 * (2 * Real.pi / teeth / 4)) := (hp 5).1
  have h5y : (gear_points (Libm.mk Real.pi Real.sin Real.cos) r0 r1 r2
      (2 * Real.pi / teeth / 4) teeth i 5).y =
      r1 * Real.sin (i * (2 * Real.pi / teeth) + 4 * (2 * Real.pi / teeth / 4)) := (hp 5).2
  have h6x : (gear_points (Libm.mk Real.pi Real.sin Real.cos) r0 r1 r2
      (2 * Real.pi / teeth / 4) teeth i 6).x =
      r0 * Real.cos (i * (2 * Real.pi / teeth) + 4 * (2 * Real.pi / teeth / 4)) := (hp 6).1
  have h6y : (gear_points (Libm.mk Real.pi Real.sin Real.cos) r0 r1 r2
      (2 * Real.pi / teeth / 4) teeth i 6).y =
      r0 * Real.sin (i * (2 * Real.pi / teeth) + 4 * (2 * Real.pi / teeth / 4)) := (hp 6).2
  have h2x : (gear_points (Libm.mk Real.pi Real.sin Real.cos) r0 r1 r2
      (2 * Real.pi / teeth / 4) teeth ((i + 1) % teeth.toNat) 2).x =
      r1 * Real.cos (((i + 1) % teeth.toNat : Nat) * (2 * Real.pi / teeth)) := (hq 2).1
  have h2y : (gear_points (Libm.mk Real.pi Real.sin Real.cos) r0 r1 r2
      (2 * Real.pi / teeth / 4) teeth ((i + 1) % teeth.toNat) 2).y =
      r1 * Real.sin (((i + 1) % teeth.toNat : Nat) * (2 * Real.pi / teeth)) := (hq 2).2
  have h4x : (gear_points (Libm.mk Real.pi Real.sin Real.cos) r0 r1 r2
      (2 * Real.pi / teeth / 4) teeth ((i + 1) % teeth.toNat) 4).x =
      r0 * Real.cos (((i + 1) % teeth.toNat : Nat) * (2 * Real.pi / teeth)) := (hq 4).1
  have h4y : (gear_points (Libm.mk Real.pi Real.sin Real.cos) r0 r1 r2
      (2 * Real.pi / teeth / 4) teeth ((i + 1) % teeth.toNat) 4).y =
      r0 * Real.sin (((i + 1) % teeth.toNat : Nat) * (2 * Real.pi / teeth)) := (hq 4).2
  have hang : (i : ℝ) * (2 * Real.pi / teeth) + 4 * (2 * Real.pi / teeth / 4) =
      ((i : ℝ) + 1) * (2 * Real.pi / teeth) := by ring
  have hcs : Real.cos (i * (2 * Real.pi / teeth) + 4 * (2 * Real.pi / teeth / 4)) =
        Real.cos (((i + 1) % teeth.toNat : Nat) * (2 * Real.pi / teeth)) ∧
      Real.sin (i * (2 * Real.pi / teeth) + 4 * (2 * Real.pi / teeth / 4)) =
        Real.sin (((i + 1) % teeth.toNat : Nat) * (2 * Real.pi / teeth)) := by
    rw [hang]
    by_cases hlt : i + 1 < teeth.toNat
    · rw [Nat.mod_eq_of_lt hlt]
      push_cast
      exact ⟨rfl, rfl⟩
    · have hn : i + 1 = teeth.toNat := by omega
      have ht : (teeth : ℝ) = (i : ℝ) + 1 := by
        have h1 : teeth = ((i + 1 : Nat) : Int) := by omega
        rw [h1]
        push_cast
        ring
      have hne : (i : ℝ) + 1 ≠ 0 := by positivity
      rw [← hn, Nat.mod_self, ht]
      have e : ((i : ℝ) + 1) * (2 * Real.pi / ((i : ℝ) + 1)) = 2 * Real.pi := by
        field_simp
      rw [e]
      simp
  refine ⟨point_eq _ _ ?_ ?_, point_eq _ _ ?_ ?_⟩
  · rw [h5x, h2x, hcs.1]
  · rw [h5y, h2y, hcs.2]
  · rw [h6x, h4x, hcs.1]
  · rw [h6y, h4y, hcs.2]

/-- C23: for `teeth >= 1` the tooth profiles of `create_gear` join into a closed rim: point `p5`
of tooth `i` is point `p2` of tooth `(i + 1) mod teeth` and point `p6` of tooth `i` is point
`p4` of tooth `(i + 1) mod teeth`; so the front-face vertices `34i + 5` and `34i + 6` of the
returned gear equal the front-face vertices `34i' + 2` and `34i' + 4` of the next tooth `i'`. -/
theorem create_gear_rim_closed (heap : Heap) (inner_radius outer_radius width : ℝ) (teeth : Int)
    (tooth_depth : ℝ) (g : gear ℝ) (h : 1 ≤ teeth)
    (hg : create_gear (Libm.mk Real.pi Real.sin Real.cos) heap inner_radius outer_radius width
      teeth tooth_depth = Outcome.ok g)
    (i : Nat) (hi : (i : Int) < teeth) (p q : Fin 7 → point ℝ)
    (hp : p = gear_points (Libm.mk Real.pi Real.sin Real.cos) inner_radius
      (outer_radius - tooth_depth / 2) (outer_radius + tooth_depth / 2)
      (2 * Real.pi / teeth / 4) teeth i)
    (hq : q = gear_points (Libm.mk Real.pi Real.sin Real.cos) inner_radius
      (outer_radius - tooth_depth / 2) (outer_radius + tooth_depth / 2)
      (2 * Real.pi / teeth / 4) teeth ((i + 1) % teeth.toNat)) :
    p 5 = q 2 ∧ p 6 = q 4 ∧
    g.vertices[34 * i + 5]? = some ![(p 5).x, (p 5).y, width / 2, 0, 0, 1] ∧
    g.vertices[34 * ((i + 1) % teeth.toNat) + 2]? = g.vertices[34 * i + 5]? ∧
    g.vertices[34 * i + 6]? = some ![(p 6).x, (p 6).y, width / 2, 0, 0, 1] ∧
    g.vertices[34 * ((i + 1) % teeth.toNat) + 4]? = g.vertices[34 * i + 6]? := by
  obtain ⟨h52, h64⟩ := gear_points_next inner_radius (outer_radius - tooth_depth / 2)
    (outer_radius + tooth_depth / 2) teeth h i hi
  have hpos : 0 < teeth.toNat := by omega
  have hi2 : (((i + 1) % teeth.toNat : Nat) : Int) < teeth := by
    have := Nat.mod_lt (i + 1) hpos
    omega
  have hfp := (create_gear_face_vertices (Libm.mk Real.pi Real.sin Real.cos) heap inner_radius
    outer_radius width teeth tooth_depth g hg i hi p hp).1
  have hfq := (create_gear_face_vertices (Libm.mk Real.pi Real.sin Real.cos) heap inner_radius
    outer_radius width teeth tooth_depth g hg ((i + 1) % teeth.toNat) hi2 q hq).1
  have e52 : p 5 = q 2 := by rw [hp, hq]; exact h52
  have e64 : p 6 = q 4 := by rw [hp, hq]; exact h64
  have v5 : g.vertices[34 * i + 5]? = some ![(p 5).x, (p 5).y, width / 2, 0, 0, 1] := hfp 5
  have v6 : g.vertices[34 * i + 6]? = some ![(p 6).x, (p 6).y, width / 2, 0, 0, 1] := hfp 6
  have w2 : g.vertices[34 * ((i + 1) % teeth.toNat) + 2]? =
      some ![(q 2).x, (q 2).y, width / 2, 0, 0, 1] := hfq 2
  have w4 : g.vertices[34 * ((i + 1) % teeth.toNat) + 4]? =
      some ![(q 4).x, (q 4).y, width / 2, 0, 0, 1] := hfq 4
  refine ⟨e52, e64, v5, ?_, v6, ?_⟩
  · rw [v5, e52]; exact w2
  · rw [v6, e64]; exact w4

/-- C23 at the last tooth of `create_gear(1.0, 4.0, 1.0, 20, 0.7)`: its vertices 5 and 6 are
the vertices 2 and 4 of tooth 0. -/
theorem create_gear_rim_closed_witness :
    ∃ g, create_gear (Libm.mk Real.pi Real.sin Real.cos) (Heap.mk true true true)
        1 4 1 20 0.7 = Outcome.ok g ∧
      g.vertices[2]? = g.vertices[651]? ∧ g.vertices[4]? = g.vertices[652]? := by
  obtain ⟨g, hg⟩ := create_gear_returns (Libm.mk Real.pi Real.sin Real.cos)
    (Heap.mk true true true) 1 4 1 20 0.7 (by decide) (by decide) rfl rfl rfl
  have h := create_gear_rim_closed (Heap.mk true true true) 1 4 1 20 0.7 g (by decide) hg 19
    (by decide) _ _ rfl rfl
  exact ⟨g, hg, h.2.2.2.1, h.2.2.2.2.2⟩

/-- The normal of every vertex of a quad, dotted with the midpoint of its two points. -/
theorem normal_dot_mid_quad [Field α] (h2 : (2 : α) ≠ 0) (a b : point α) (width : α)
    (v : GearVertex α) (hv : v ∈ quad_vertices a b width) :
    normal_dot_mid v a b = a.y * b.x - a.x * b.y := by
  simp only [quad_vertices, List.mem_cons, List.mem_singleton, List.not_mem_nil,
    or_false] at hv
  rcases hv with rfl | rfl | rfl | rfl <;>
    · simp [normal_dot_mid]
      field_simp
      ring

/-- The value `a.y * b.x - a.x * b.y` for the five quads of a tooth, over the reals. -/
theorem quad_cross_values (r0 r1 r2 da : ℝ) (teeth : Int) (i : Nat) (p : Fin 7 → point ℝ)
    (hp : p = gear_points (Libm.mk Real.pi Real.sin Real.cos) r0 r1 r2 da teeth i) :
    (p 0).y * (p 2).x - (p 0).x * (p 2).y = r2 * r1 * Real.sin da ∧
    (p 1).y * (p 0).x - (p 1).x * (p 0).y = r2 * r2 * Real.sin da ∧
    (p 3).y * (p 1).x - (p 3).x * (p 1).y = r1 * r2 * Real.sin da ∧
    (p 5).y * (p 3).x - (p 5).x * (p 3).y = r1 * r1 * Real.sin da ∧
    (p 4).y * (p 6).x - (p 4).x * (p 6).y = -(r0 * r0 * Real.sin (4 * da)) := by
  have hpts := gear_points_real r0 r1 r2 da teeth i (i * (2 * Real.pi / teeth)) rfl
  rw [← hp] at hpts
  have x0 : (p 0).x = r2 * Real.cos (i * (2 * Real.pi / teeth) + da) := (hpts 0).1
  have y0 : (p 0).y = r2 * Real.sin (i * (2 * Real.pi / teeth) + da) := (hpts 0).2
  have x1 : (p 1).x = r2 * Real.cos (i * (2 * Real.pi / teeth) + 2 * da) := (hpts 1).1
  have y1 : (p 1).y = r2 * Real.sin (i * (2 * Real.pi / teeth) + 2 * da) := (hpts 1).2
  have x2 : (p 2).x = r1 * Real.cos (i * (2 * Real.pi / teeth)) := (hpts 2).1
  have y2 : (p 2).y = r1 * Real.sin (i * (2 * Real.pi / teeth)) := (hpts 2).2
  have x3 : (p 3).x = r1 * Real.cos (i * (2 * Real.pi / teeth) + 3 * da) := (hpts 3).1
  have y3 : (p 3).y = r1 * Real.sin (i * (2 * Real.pi / teeth) + 3 * da) := (hpts 3).2
  have x4 : (p 4).x = r0 * Real.cos (i * (2 * Real.pi / teeth)) := (hpts 4).1
  have y4 : (p 4).y = r0 * Real.sin (i * (2 * Real.pi / teeth)) := (hpts 4).2
  have x5 : (p 5).x = r1 * Real.cos (i * (2 * Real.pi / teeth) + 4 * da) := (hpts 5).1
  have y5 : (p 5).y = r1 * Real.sin (i * (2 * Real.pi / teeth) + 4 * da) := (hpts 5).2
  have x6 : (p 6).x = r0 * Real.cos (i * (2 * Real.pi / teeth) + 4 * da) := (hpts 6).1
  have y6 : (p 6).y = r0 * Real.sin (i * (2 * Real.pi / teeth) + 4 * da) := (hpts 6).2
  have key : ∀ u w : ℝ, Real.sin u * Real.cos w - Real.cos u * Real.sin w = Real.sin (u - w) :=
    fun u w => (Real.sin_sub u w).symm
  refine ⟨?_, ?_, ?_, ?_, ?_⟩
  · have k := key (i * (2 * Real.pi / teeth) + da) (i * (2 * Real.pi / teeth))
    rw [add_sub_cancel_left] at k
    rw [x0, y0, x2, y2, ← k]
    ring
  · have k := key (i * (2 * Real.pi / teeth) + 2 * da) (i * (2 * Real.pi / teeth) + da)
    have e : i * (2 * Real.pi / teeth) + 2 * da - (i * (2 * Real.pi / teeth) + da) = da := by
      ring
    rw [e] at k
    rw [x1, y1, x0, y0, ← k]
    ring
  · have k := key (i * (2 * Real.pi / teeth) + 3 * da) (i * (2 * Real.pi / teeth) + 2 * da)
    have e : i * (2 * Real.pi / teeth) + 3 * da - (i * (2 * Real.pi / teeth) + 2 * da) = da := by
      ring
    rw [e] at k
    rw [x3, y3, x1, y1, ← k]
    ring
  · have k := key (i * (2 * Real.pi / teeth) + 4 * da) (i * (2 * Real.pi / teeth) + 3 * da)
    have e : i * (2 * Real.pi / teeth) + 4 * da - (i * (2 * Real.pi / teeth) + 3 * da) = da := by
      ring
    rw [e] at k
    rw [x5, y5, x3, y3, ← k]
    ring
  · have k := key (i * (2 * Real.pi / teeth) + 4 * da) (i * (2 * Real.pi / teeth))
    rw [add_sub_cancel_left] at k
    rw [x4, y4, x6, y6, ← k]
    ring

/-- The dot product of the stored normal with the midpoint, for every vertex of the five quads
of tooth `i` of a returned gear. -/
theorem create_gear_quad_dots (heap : Heap) (inner_radius outer_radius width : ℝ) (teeth : Int)
    (tooth_depth : ℝ) (g : gear ℝ)
    (hg : create_gear (Libm.mk Real.pi Real.sin Real.cos) heap inner_radius outer_radius width
      teeth tooth_depth = Outcome.ok g)
    (i : Nat) (hi : (i : Int) < teeth) (p : Fin 7 → point ℝ)
    (hp : p = gear_points (Libm.mk Real.pi Real.sin Real.cos) inner_radius
      (outer_radius - tooth_depth / 2) (outer_radius + tooth_depth / 2)
      (2 * Real.pi / teeth / 4) teeth i) :
    (∀ v ∈ (g.vertices.drop (34 * i + 18)).take 4, normal_dot_mid v (p 0) (p 2) =
      (outer_radius + tooth_depth / 2) * (outer_radius - tooth_depth / 2) *
        Real.sin (2 * Real.pi / teeth / 4)) ∧
    (∀ v ∈ (g.vertices.drop (34 * i + 22)).take 4, normal_dot_mid v (p 1) (p 0) =
      (outer_radius + tooth_depth / 2) * (outer_radius + tooth_depth / 2) *
        Real.sin (2 * Real.pi / teeth / 4)) ∧
    (∀ v ∈ (g.vertices.drop (34 * i + 26)).take 4, normal_dot_mid v (p 3) (p 1) =
      (outer_radius - tooth_depth / 2) * (outer_radius + tooth_depth / 2) *
        Real.sin (2 * Real.pi / teeth / 4)) ∧
    (∀ v ∈ (g.vertices.drop (34 * i + 30)).take 4, normal_dot_mid v (p 5) (p 3) =
      (outer_radius - tooth_depth / 2) * (outer_radius - tooth_depth / 2) *
        Real.sin (2 * Real.pi / teeth / 4)) ∧
    (∀ v ∈ (g.vertices.drop (34 * i + 7)).take 4, normal_dot_mid v (p 4) (p 6) =
      -(inner_radius * inner_radius * Real.sin (4 * (2 * Real.pi / teeth / 4)))) := by
  obtain ⟨_, s1, _, s3, s4, s5, s6⟩ := create_gear_slices (Libm.mk Real.pi Real.sin Real.cos)
    heap inner_radius outer_radius width teeth tooth_depth g hg i hi p hp
  obtain ⟨c02, c10, c31, c53, c46⟩ := quad_cross_values inner_radius
    (outer_radius - tooth_depth / 2) (outer_radius + tooth_depth / 2)
    (2 * Real.pi / teeth / 4) teeth i p hp
  have h2 : (2 : ℝ) ≠ 0 := two_ne_zero
  refine ⟨?_, ?_, ?_, ?_, ?_⟩
  · intro v hv
    rw [s3, emitted_quad_strip] at hv
    rw [normal_dot_mid_quad h2 _ _ _ v hv, c02]
  · intro v hv
    rw [s4, emitted_quad_strip] at hv
    rw [normal_dot_mid_quad h2 _ _ _ v hv, c10]
  · intro v hv
    rw [s5, emitted_quad_strip] at hv
    rw [normal_dot_mid_quad h2 _ _ _ v hv, c31]
  · intro v hv
    rw [s6, emitted_quad_strip] at hv
    rw [normal_dot_mid_quad h2 _ _ _ v hv, c53]
  · intro v hv
    rw [s1, emitted_quad_strip] at hv
    rw [normal_dot_mid_quad h2 _ _ _ v hv, c46]

theorem sin_da_pos (teeth : Int) (ht : 3 ≤ teeth) :
    0 < Real.sin (2 * Real.pi / teeth / 4) ∧ 0 < Real.sin (4 * (2 * Real.pi / teeth / 4)) := by
  have hT : (3 : ℝ) ≤ (teeth : ℝ) := by exact_mod_cast ht
  have hT0 : (0 : ℝ) < (teeth : ℝ) := by linarith
  have hpi := Real.pi_pos
  have h1 : 0 < 2 * Real.pi / teeth / 4 := by positivity
  have h2 : 2 * Real.pi / teeth / 4 < Real.pi := by
    rw [div_div, div_lt_iff₀ (by positivity)]
    nlinarith
  have e : 4 * (2 * Real.pi / teeth / 4) = 2 * Real.pi / teeth := by ring
  have h3 : 0 < 2 * Real.pi / (teeth : ℝ) := by positivity
  have h4 : 2 * Real.pi / (teeth : ℝ) < Real.pi := by
    rw [div_lt_iff₀ hT0]
    nlinarith
  refine ⟨Real.sin_pos_of_pos_of_lt_pi h1 h2, ?_⟩
  rw [e]
  exact Real.sin_pos_of_pos_of_lt_pi h3 h4

/-- C24, amended with `outer_radius + tooth_depth/2 > 0`: for `teeth >= 3`, `inner_radius > 0`,
`outer_radius - tooth_depth/2 > 0` and `outer_radius + tooth_depth/2 > 0`, in every tooth of the
returned gear the normal stored in each vertex of the four outer quads `(0, 2)`, `(1, 0)`,
`(3, 1)`, `(5, 3)` has a strictly positive dot product with the midpoint of the quad's two
points, and the normal of each vertex of the inner quad `(4, 6)` has a strictly negative one;
each of these strips has four vertices. -/
theorem create_gear_quad_normals (heap : Heap) (inner_radius outer_radius width : ℝ)
    (teeth : Int) (tooth_depth : ℝ) (g : gear ℝ)
    (hg : create_gear (Libm.mk Real.pi Real.sin Real.cos) heap inner_radius outer_radius width
      teeth tooth_depth = Outcome.ok g)
    (ht : 3 ≤ teeth) (h0 : 0 < inner_radius) (h1 : 0 < outer_radius - tooth_depth / 2)
    (h2 : 0 < outer_radius + tooth_depth / 2)
    (i : Nat) (hi : (i : Int) < teeth) (p : Fin 7 → point ℝ)
    (hp : p = gear_points (Libm.mk Real.pi Real.sin Real.cos) inner_radius
      (outer_radius - tooth_depth / 2) (outer_radius + tooth_depth / 2)
      (2 * Real.pi / teeth / 4) teeth i) :
    (((g.vertices.drop (34 * i + 18)).take 4).length = 4 ∧
      ∀ v ∈ (g.vertices.drop (34 * i + 18)).take 4, 0 < normal_dot_mid v (p 0) (p 2)) ∧
    (((g.vertices.drop (34 * i + 22)).take 4).length = 4 ∧
      ∀ v ∈ (g.vertices.drop (34 * i + 22)).take 4, 0 < normal_dot_mid v (p 1) (p 0)) ∧
    (((g.vertices.drop (34 * i + 26)).take 4).length = 4 ∧
      ∀ v ∈ (g.vertices.drop (34 * i + 26)).take 4, 0 < normal_dot_mid v (p 3) (p 1)) ∧
    (((g.vertices.drop (34 * i + 30)).take 4).length = 4 ∧
      ∀ v ∈ (g.vertices.drop (34 * i + 30)).take 4, 0 < normal_dot_mid v (p 5) (p 3)) ∧
    (((g.vertices.drop (34 * i + 7)).take 4).length = 4 ∧
      ∀ v ∈ (g.vertices.drop (34 * i + 7)).take 4, normal_dot_mid v (p 4) (p 6) < 0) := by
  obtain ⟨_, s1, _, s3, s4, s5, s6⟩ := create_gear_slices (Libm.mk Real.pi Real.sin Real.cos)
    heap inner_radius outer_radius width teeth tooth_depth g hg i hi p hp
  obtain ⟨d02, d10, d31, d53, d46⟩ := create_gear_quad_dots heap inner_radius outer_radius
    width teeth tooth_depth g hg i hi p hp
  obtain ⟨hs, hs4⟩ := sin_da_pos teeth ht
  have hlen : ∀ a b : Fin 7, (emitted (quad_strip p width a b)).length = 4 := by
    intro a b
    rw [emitted_quad_strip]
    rfl
  refine ⟨⟨?_, ?_⟩, ⟨?_, ?_⟩, ⟨?_, ?_⟩, ⟨?_, ?_⟩, ⟨?_, ?_⟩⟩
  · rw [s3, hlen]
  · intro v hv
    rw [d02 v hv]
    positivity
  · rw [s4, hlen]
  · intro v hv
    rw [d10 v hv]
    positivity
  · rw [s5, hlen]
  · intro v hv
    rw [d31 v hv]
    positivity
  · rw [s6, hlen]
  · intro v hv
    rw [d53 v hv]
    positivity
  · rw [s1, hlen]
  · intro v hv
    rw [d46 v hv]
    have : 0 < inner_radius * inner_radius * Real.sin (4 * (2 * Real.pi / teeth / 4)) := by
      positivity
    linarith

/-- C24 amended, at tooth 3 of `create_gear(1.0, 4.0, 1.0, 20, 0.7)`. -/
theorem create_gear_quad_normals_witness :
    ∃ g, create_gear (Libm.mk Real.pi Real.sin Real.cos) (Heap.mk true true true)
        1 4 1 20 0.7 = Outcome.ok g ∧
      ((g.vertices.drop 120).take 4).length = 4 ∧
      ∀ v ∈ (g.vertices.drop 120).take 4,
        0 < normal_dot_mid v
          (gear_points (Libm.mk Real.pi Real.sin Real.cos) 1 (4 - 0.7 / 2) (4 + 0.7 / 2)
            (2 * Real.pi / ((20 : Int) : ℝ) / 4) 20 3 0)
          (gear_points (Libm.mk Real.pi Real.sin Real.cos) 1 (4 - 0.7 / 2) (4 + 0.7 / 2)
            (2 * Real.pi / ((20 : Int) : ℝ) / 4) 20 3 2) := by
  obtain ⟨g, hg⟩ := create_gear_returns (Libm.mk Real.pi Real.sin Real.cos)
    (Heap.mk true true true) 1 4 1 20 0.7 (by decide) (by decide) rfl rfl rfl
  have h := (create_gear_quad_normals (Heap.mk true true true) 1 4 1 20 0.7 g hg (by decide)
    (by norm_num) (by norm_num) (by norm_num) 3 (by decide) _ rfl).1
  exact ⟨g, hg, h.1, h.2⟩

/-- C24 as stated fails when `outer_radius + tooth_depth/2` is negative: for
`create_gear(1.0, 1.0, 1.0, 3, -4.0)` the hypotheses `teeth >= 3`, `inner_radius > 0` and
`outer_radius - tooth_depth/2 > 0` hold, and in tooth 0 every vertex of the outer quad `(0, 2)`
(vertices 18 to 21) has a normal whose dot product with the midpoint is `-3/2`. -/
theorem create_gear_quad_normals_counterexample :
    (3 : Int) ≤ 3 ∧ (0 : ℝ) < 1 ∧ (0 : ℝ) < 1 - (-4) / 2 ∧
    ∃ g, create_gear (Libm.mk Real.pi Real.sin Real.cos) (Heap.mk true true true)
        1 1 1 3 (-4) = Outcome.ok g ∧
      ((g.vertices.drop 18).take 4).length = 4 ∧
      ∀ v ∈ (g.vertices.drop 18).take 4,
        normal_dot_mid v
          (gear_points (Libm.mk Real.pi Real.sin Real.cos) 1 (1 - (-4) / 2) (1 + (-4) / 2)
            (2 * Real.pi / ((3 : Int) : ℝ) / 4) 3 0 0)
          (gear_points (Libm.mk Real.pi Real.sin Real.cos) 1 (1 - (-4) / 2) (1 + (-4) / 2)
            (2 * Real.pi / ((3 : Int) : ℝ) / 4) 3 0 2) = -(3 / 2) ∧
        ¬ (0 < normal_dot_mid v
          (gear_points (Libm.mk Real.pi Real.sin Real.cos) 1 (1 - (-4) / 2) (1 + (-4) / 2)
            (2 * Real.pi / ((3 : Int) : ℝ) / 4) 3 0 0)
          (gear_points (Libm.mk Real.pi Real.sin Real.cos) 1 (1 - (-4) / 2) (1 + (-4) / 2)
            (2 * Real.pi / ((3 : Int) : ℝ) / 4) 3 0 2)) := by
  refine ⟨le_refl _, one_pos, by norm_num, ?_⟩
  obtain ⟨g, hg⟩ := create_gear_returns (Libm.mk Real.pi Real.sin Real.cos)
    (Heap.mk true true true) 1 1 1 3 (-4) (by decide) (by decide) rfl rfl rfl
  have hd := (create_gear_quad_dots (Heap.mk true true true) 1 1 1 3 (-4) g hg 0 (by decide)
    _ rfl).1
  obtain ⟨_, _, _, s3, _⟩ := create_gear_slices (Libm.mk Real.pi Real.sin Real.cos)
    (Heap.mk true true true) 1 1 1 3 (-4) g hg 0 (by decide) _ rfl
  have hsin : Real.sin (2 * Real.pi / ((3 : Int) : ℝ) / 4) = 1 / 2 := by
    have e : 2 * Real.pi / ((3 : Int) : ℝ) / 4 = Real.pi / 6 := by
      push_cast
      ring
    rw [e, Real.sin_pi_div_six]
  have hval : ∀ v ∈ (g.vertices.drop 18).take 4,
      normal_dot_mid v
          (gear_points (Libm.mk Real.pi Real.sin Real.cos) 1 (1 - (-4) / 2) (1 + (-4) / 2)
            (2 * Real.pi / ((3 : Int) : ℝ) / 4) 3 0 0)
          (gear_points (Libm.mk Real.pi Real.sin Real.cos) 1 (1 - (-4) / 2) (1 + (-4) / 2)
            (2 * Real.pi / ((3 : Int) : ℝ) / 4) 3 0 2) = -(3 / 2) := by
    intro v hv
    rw [hd v hv, hsin]
    norm_num
  refine ⟨g, hg, ?_, ?_⟩
  · have e : (g.vertices.drop 18).take 4 = (g.vertices.drop (34 * 0 + 18)).take 4 := rfl
    rw [e, s3, emitted_quad_strip]
    rfl
  · intro v hv
    refine ⟨hval v hv, ?_⟩
    rw [hval v hv]
    norm_num

end Es2Gears
